import Mathlib

/-!
Shallow embedding of the knowledge-graph engine of the
community-resilience-mvp repository:

* `backend/services/kg_storage.py`  — `KGStorageService` (canonicalization,
  entity/relationship dedup and merge, evidence provenance);
* `backend/services/kg_extractor.py` — `KGExtractor` (response parsing,
  text chunking, candidate dedup);
* `backend/services/kg_query.py`    — `KGQueryService` (hybrid search,
  bounded BFS network traversal).

Python strings are modelled as lists of unicode code points (`PyStr`), so
Python `len` is `List.length`.  Character classes (`\w`, `\s`, `str.lower`,
`str.strip`) are modelled on their ASCII behaviour, which covers every
input the theorems below evaluate.  Float confidence scores are modelled
as rationals: every operation performed on them by the code (`max`,
comparison, literal constants) is exact in IEEE floats, so `Rat` is a
faithful model.  SQL tables are modelled as Lean lists of rows; a query's
`.first()` is `List.find?` over the list in row order.
-/

/-- Python `str` as a sequence of code points. -/
abbrev PyStr := List Char

/-- View a Lean string literal as a Python string. -/
def pyOfString (s : String) : PyStr := s.data

/-- Python whitespace, as used by `str.strip()` and the regex class `\s`
(ASCII subset: space, tab, newline, vertical tab, form feed,
carriage return). -/
def pyIsSpace (c : Char) : Bool :=
  c == ' ' || c == '\t' || c == '\n' || c == '\x0b' || c == '\x0c' || c == '\r'

/-- The regex class `\w` used by `_normalize_name`
(ASCII subset: letters, digits, underscore). -/
def pyIsWordChar (c : Char) : Bool :=
  c.isAlphanum || c == '_'

/-- Python `str.lower`, per character (ASCII case mapping). -/
def pyLowerChar (c : Char) : Char :=
  if 65 ≤ c.toNat ∧ c.toNat ≤ 90 then Char.ofNat (c.toNat + 32) else c

/-- Python `str.lower()`. -/
def pyLower (s : PyStr) : PyStr := s.map pyLowerChar

/-- Python `str.strip()`: drop whitespace from both ends. -/
def pyStrip (s : PyStr) : PyStr :=
  ((s.dropWhile pyIsSpace).reverse.dropWhile pyIsSpace).reverse

/-- `re.sub(r'[^\w\s-]', '', s)`: remove punctuation except hyphens
(`kg_storage.py` line 263). -/
def removePunct (s : PyStr) : PyStr :=
  s.filter (fun c => pyIsWordChar c || pyIsSpace c || c == '-')

/-- `re.sub(r'\s+', ' ', s)`: replace each maximal whitespace run by a
single space.  The Boolean flag records whether the previous character
belonged to a whitespace run (in a run, further whitespace is dropped;
at the start of a run, one space is emitted). -/
def collapseWsAux : Bool → PyStr → PyStr
  | _, [] => []
  | true, c :: rest =>
    if pyIsSpace c then collapseWsAux true rest
    else c :: collapseWsAux false rest
  | false, c :: rest =>
    if pyIsSpace c then ' ' :: collapseWsAux true rest
    else c :: collapseWsAux false rest

/-- `re.sub(r'\s+', ' ', s)` (`kg_storage.py` line 264). -/
def collapseWs (s : PyStr) : PyStr := collapseWsAux false s

/-- `KGStorageService._normalize_name` (`kg_storage.py` lines 254-265):
lower-case, strip, remove punctuation except hyphens, collapse
whitespace runs — in exactly that order. -/
def normalize_name (s : PyStr) : PyStr :=
  collapseWs (removePunct (pyStrip (pyLower s)))

-- ── JSON values and Python dict primitives ───────────────────────────────────

/-- A parsed JSON value, as produced by `json.loads` on the model output. -/
inductive JVal where
  | jnull : JVal
  | jbool : Bool → JVal
  | jnum : Rat → JVal
  | jstr : PyStr → JVal
  | jarr : List JVal → JVal
  | jobj : List (PyStr × JVal) → JVal

/-- Attribute maps (`attributes` JSON columns and candidate attribute
dicts): ordered key/value lists, unique keys, Python dict semantics. -/
abbrev AttrMap := List (PyStr × JVal)

/-- Python `d.get(k)`: the value at the first matching key. -/
def pyLookup {α : Type} (kvs : List (PyStr × α)) (k : PyStr) : Option α :=
  (kvs.find? (fun kv => kv.1 == k)).map (fun kv => kv.2)

/-- Python `d.get(k, dflt)`. -/
def jGet (kvs : AttrMap) (k : PyStr) (dflt : JVal) : JVal :=
  match pyLookup kvs k with
  | some v => v
  | none => dflt

/-- Python truthiness of a JSON value (`if not data: ...`). -/
def jFalsy : JVal → Bool
  | JVal.jnull => true
  | JVal.jbool b => !b
  | JVal.jnum q => q == 0
  | JVal.jstr s => s.isEmpty
  | JVal.jarr l => l.isEmpty
  | JVal.jobj l => l.isEmpty

/-- Python `{**a, **b}`: keys of `a` first (values overridden by `b` on
conflicts), then the keys of `b` not in `a`, in insertion order. -/
def pyDictMerge (a b : AttrMap) : AttrMap :=
  (a.map (fun kv =>
    match pyLookup b kv.1 with
    | some v => (kv.1, v)
    | none => kv)) ++ b.filter (fun kv => (pyLookup a kv.1).isNone)

/-- Python truthiness of an optional string (`None` and `""` are falsy). -/
def pyTruthyStr : Option PyStr → Bool
  | none => false
  | some s => !s.isEmpty

/-- Python `x or 0` on a (non-`None`) float: `0.0` is falsy, so this is
the identity on the values this model stores. -/
def pyOrZero (q : Rat) : Rat := if q == 0 then 0 else q

-- ── Closed type sets (`models/kg_models.py`) ─────────────────────────────────

/-- `ENTITY_TYPES` (`kg_models.py` lines 25-32). -/
def ENTITY_TYPES : List PyStr :=
  [pyOfString ("HazardType"), pyOfString ("Community"), pyOfString ("Agency"),
   pyOfString ("Location"), pyOfString ("Resource"), pyOfString ("Action")]

/-- `RELATIONSHIP_TYPES` (`kg_models.py` lines 36-47). -/
def RELATIONSHIP_TYPES : List PyStr :=
  [pyOfString ("occursIn"), pyOfString ("hasHazardType"), pyOfString ("serves"),
   pyOfString ("responsibleFor"), pyOfString ("locatedIn"), pyOfString ("targets"),
   pyOfString ("owns"), pyOfString ("implementedBy"), pyOfString ("dependsOn"),
   pyOfString ("partOf")]

-- ── Extraction candidates (`kg_extractor.py` dataclasses) ────────────────────

/-- `ExtractedEntity` (`kg_extractor.py` lines 21-30). -/
structure ExtractedEntity where
  entity_type : PyStr
  name : PyStr
  entity_subtype : Option PyStr
  attributes : AttrMap
  confidence : Rat
  evidence_text : PyStr
  location_text : Option PyStr

/-- `ExtractedRelationship` (`kg_extractor.py` lines 33-43). -/
structure ExtractedRelationship where
  source_name : PyStr
  source_type : PyStr
  target_name : PyStr
  target_type : PyStr
  relationship_type : PyStr
  attributes : AttrMap
  confidence : Rat
  evidence_text : PyStr

-- ── Python float() on JSON values ────────────────────────────────────────────

/-- Nonempty all-digit string. -/
def allDigits (l : PyStr) : Bool := !l.isEmpty && l.all (fun c => c.isDigit)

/-- Numeric value of a digit string. -/
def digitsVal (l : PyStr) : Nat :=
  l.foldl (fun acc c => acc * 10 + (c.toNat - 48)) 0

/-- Python `float(s)` on a string, for simple decimal literals: optional
sign, then digits with an optional single decimal point, surrounded by
optional whitespace; anything else raises (`none`).  (Exponent forms,
`inf`/`nan` and underscores are accepted by CPython but not modelled; no
theorem below evaluates them.) -/
def pyParseFloat (s : PyStr) : Option Rat :=
  let t := pyStrip s
  let signed : Rat × PyStr :=
    match t with
    | '-' :: r => (-1, r)
    | '+' :: r => (1, r)
    | _ => (1, t)
  let sign := signed.1
  let t := signed.2
  let ip := t.takeWhile (fun c => !(c == '.'))
  let rest := t.dropWhile (fun c => !(c == '.'))
  match rest with
  | [] => if allDigits ip then some (sign * digitsVal ip) else none
  | _ :: fp =>
    if fp.any (fun c => c == '.') then none
    else if allDigits ip && allDigits fp then
      some (sign * ((digitsVal ip : Rat) + (digitsVal fp : Rat) / ((10 : Rat) ^ fp.length)))
    else if allDigits ip && fp.isEmpty then some (sign * digitsVal ip)
    else if ip.isEmpty && allDigits fp then
      some (sign * ((digitsVal fp : Rat) / ((10 : Rat) ^ fp.length)))
    else none

/-- Python `float(x)` on a JSON value; `none` models the
`ValueError`/`TypeError` that `float` raises on `None`, lists, dicts
and non-numeric strings (`bool` is a numeric type in Python). -/
def pyFloat : JVal → Option Rat
  | JVal.jnum q => some q
  | JVal.jbool b => some (if b then 1 else 0)
  | JVal.jstr s => pyParseFloat s
  | _ => none

/-- The string content of a JSON value, `none` when the value is not a
string (so calling a `str` method on it raises `AttributeError`). -/
def pyStrOf : JVal → Option PyStr
  | JVal.jstr s => some s
  | _ => none

-- ── Response parsing (`kg_extractor.py` lines 279-346) ───────────────────────

/-- Outcome of one iteration of a parse loop body: an accepted candidate,
a `continue` (failed validation or a caught `ValueError`/`TypeError`),
or an uncaught exception (`AttributeError` from `.strip()` on a
non-string) that aborts the whole parse. -/
inductive ItemOutcome (α : Type) where
  | ok : α → ItemOutcome α
  | skip : ItemOutcome α
  | fatal : ItemOutcome α

/-- One iteration of the entity loop of `_parse_entity_response`
(`kg_extractor.py` lines 290-308).  Non-string `entity_subtype` /
`evidence_text` / `location_text` values and non-object `attributes`
values — which the dataclass would store untouched and no theorem below
exercises — are modelled by their defaults. -/
def parse_entity_item : JVal → ItemOutcome ExtractedEntity
  | JVal.jobj kvs =>
    let entity_type := jGet kvs (pyOfString ("entity_type")) (JVal.jstr [])
    match pyStrOf (jGet kvs (pyOfString ("name")) (JVal.jstr [])) with
    | none => ItemOutcome.fatal
    | some name0 =>
      let name := pyStrip name0
      let tyOk : Option PyStr :=
        match entity_type with
        | JVal.jstr t => if ENTITY_TYPES.contains t then some t else none
        | _ => none
      match tyOk with
      | none => ItemOutcome.skip
      | some ty =>
        if name.isEmpty then ItemOutcome.skip
        else
          match pyFloat (jGet kvs (pyOfString ("confidence")) (JVal.jnum (1/2))) with
          | none => ItemOutcome.skip
          | some conf =>
            ItemOutcome.ok
              { entity_type := ty
                name := name
                entity_subtype :=
                  match pyLookup kvs (pyOfString ("entity_subtype")) with
                  | some (JVal.jstr t) => some t
                  | _ => none
                attributes :=
                  match jGet kvs (pyOfString ("attributes")) (JVal.jobj []) with
                  | JVal.jobj m => m
                  | _ => []
                confidence := conf
                evidence_text :=
                  match jGet kvs (pyOfString ("evidence_text")) (JVal.jstr []) with
                  | JVal.jstr t => t
                  | _ => []
                location_text :=
                  match pyLookup kvs (pyOfString ("location_text")) with
                  | some (JVal.jstr t) => some t
                  | _ => none }
  | _ => ItemOutcome.skip

/-- The entity loop (`for item in entities_raw`); `none` models an
uncaught exception escaping `_parse_entity_response`. -/
def parse_entity_items : List JVal → Option (List ExtractedEntity)
  | [] => some []
  | item :: rest =>
    match parse_entity_item item with
    | ItemOutcome.fatal => none
    | ItemOutcome.skip => parse_entity_items rest
    | ItemOutcome.ok e => (parse_entity_items rest).map (fun l => e :: l)

/-- `KGExtractor._parse_entity_response` (`kg_extractor.py` lines
279-310), taking the result of `_parse_json` as input (JSON parsing of
the raw model text is external to the claims); `none` models an uncaught
exception. -/
def _parse_entity_response (data : Option JVal) : Option (List ExtractedEntity) :=
  match data with
  | none => some []
  | some d =>
    if jFalsy d then some []
    else
      match d with
      | JVal.jobj kvs =>
        match jGet kvs (pyOfString ("entities")) (JVal.jarr []) with
        | JVal.jarr items => parse_entity_items items
        | _ => some []
      | _ => none

/-- One iteration of the relationship loop of
`_parse_relationship_response` (`kg_extractor.py` lines 323-341);
non-string `source_type`/`target_type`/`evidence_text` and non-object
`attributes`, unexercised below, are modelled by their defaults. -/
def parse_relationship_item : JVal → ItemOutcome ExtractedRelationship
  | JVal.jobj kvs =>
    match pyStrOf (jGet kvs (pyOfString ("source_name")) (JVal.jstr [])) with
    | none => ItemOutcome.fatal
    | some sn0 =>
      match pyStrOf (jGet kvs (pyOfString ("target_name")) (JVal.jstr [])) with
      | none => ItemOutcome.fatal
      | some tn0 =>
        let source_name := pyStrip sn0
        let target_name := pyStrip tn0
        let relOk : Option PyStr :=
          match jGet kvs (pyOfString ("relationship_type")) (JVal.jstr []) with
          | JVal.jstr t => if RELATIONSHIP_TYPES.contains t then some t else none
          | _ => none
        match relOk with
        | none => ItemOutcome.skip
        | some rt =>
          if source_name.isEmpty || target_name.isEmpty then ItemOutcome.skip
          else
            match pyFloat (jGet kvs (pyOfString ("confidence")) (JVal.jnum (1/2))) with
            | none => ItemOutcome.skip
            | some conf =>
              ItemOutcome.ok
                { source_name := source_name
                  source_type :=
                    match jGet kvs (pyOfString ("source_type")) (JVal.jstr []) with
                    | JVal.jstr t => t
                    | _ => []
                  target_name := target_name
                  target_type :=
                    match jGet kvs (pyOfString ("target_type")) (JVal.jstr []) with
                    | JVal.jstr t => t
                    | _ => []
                  relationship_type := rt
                  attributes :=
                    match jGet kvs (pyOfString ("attributes")) (JVal.jobj []) with
                    | JVal.jobj m => m
                    | _ => []
                  confidence := conf
                  evidence_text :=
                    match jGet kvs (pyOfString ("evidence_text")) (JVal.jstr []) with
                    | JVal.jstr t => t
                    | _ => [] }
  | _ => ItemOutcome.skip

/-- The relationship loop of `_parse_relationship_response`. -/
def parse_relationship_items : List JVal → Option (List ExtractedRelationship)
  | [] => some []
  | item :: rest =>
    match parse_relationship_item item with
    | ItemOutcome.fatal => none
    | ItemOutcome.skip => parse_relationship_items rest
    | ItemOutcome.ok e => (parse_relationship_items rest).map (fun l => e :: l)

/-- `KGExtractor._parse_relationship_response` (`kg_extractor.py` lines
312-346), on the result of `_parse_json`. -/
def _parse_relationship_response (data : Option JVal) : Option (List ExtractedRelationship) :=
  match data with
  | none => some []
  | some d =>
    if jFalsy d then some []
    else
      match d with
      | JVal.jobj kvs =>
        match jGet kvs (pyOfString ("relationships")) (JVal.jarr []) with
        | JVal.jarr items => parse_relationship_items items
        | _ => some []
      | _ => none

-- ── Text chunking (`kg_extractor.py` lines 369-401) ──────────────────────────

/-- Python `"\n\n".join(parts)`. -/
def joinParas : List PyStr → PyStr
  | [] => []
  | [p] => p
  | p :: q :: rest => p ++ '\x0a' :: '\x0a' :: joinParas (q :: rest)

/-- Python `content.split("\n\n")`: split on each leftmost,
non-overlapping occurrence of two consecutive newlines (accumulator
carries the current piece reversed). -/
def splitParasAux : PyStr → PyStr → List PyStr
  | '\x0a' :: '\x0a' :: rest, cur => cur.reverse :: splitParasAux rest []
  | c :: rest, cur => splitParasAux rest (c :: cur)
  | [], cur => [cur.reverse]

/-- Python `content.split("\n\n")`. -/
def pySplitParas (s : PyStr) : List PyStr := splitParasAux s []

/-- One iteration of the paragraph loop of `_chunk_text`
(`kg_extractor.py` lines 383-396).  The accumulator is
`(chunks, current_chunk, current_len)`. -/
def chunkStep (max_chars : Nat) (acc : List PyStr × List PyStr × Nat) (para0 : PyStr) :
    List PyStr × List PyStr × Nat :=
  let para := pyStrip para0
  if para.isEmpty then acc
  else
    let chunks := acc.1
    let current_chunk := acc.2.1
    let current_len := acc.2.2
    let para_len := para.length + 2
    let flushed : List PyStr × List PyStr × Nat :=
      if max_chars < current_len + para_len && !current_chunk.isEmpty then
        (chunks ++ [joinParas current_chunk],
         [current_chunk.getLastD []],
         (current_chunk.getLastD []).length + 2)
      else (chunks, current_chunk, current_len)
    (flushed.1, flushed.2.1 ++ [para], flushed.2.2 + para_len)

/-- `KGExtractor._chunk_text` (`kg_extractor.py` lines 369-401).
`max_chars` is the keyword parameter (default 3000 at the call sites). -/
def _chunk_text (content : PyStr) (max_chars : Nat) : List PyStr :=
  if content.length ≤ max_chars then [content]
  else
    let paragraphs := pySplitParas content
    let acc := paragraphs.foldl (chunkStep max_chars) ([], [], 0)
    let chunks := if acc.2.1.isEmpty then acc.1 else acc.1 ++ [joinParas acc.2.1]
    if chunks.isEmpty then [content] else chunks

-- ── Knowledge-graph rows and store state ─────────────────────────────────────

/-- A `kg_entities` row (`models/kg_models.py`).  Timestamps are an
abstract clock (`Nat`); the embedding vector is whatever the external
`embed_text` collaborator returned. -/
structure KGEntity where
  id : Nat
  entity_type : PyStr
  entity_subtype : Option PyStr
  name : PyStr
  canonical_name : PyStr
  attributes : AttrMap
  location_text : Option PyStr
  confidence_score : Rat
  extraction_method : PyStr
  embedding : List Rat
  created_at : Nat
  updated_at : Nat
  is_deleted : Bool

/-- A `kg_relationships` row. -/
structure KGRelationship where
  id : Nat
  source_entity_id : Nat
  target_entity_id : Nat
  relationship_type : PyStr
  attributes : AttrMap
  confidence_score : Rat
  extraction_method : PyStr
  created_at : Nat
  updated_at : Nat
  is_deleted : Bool

/-- A `kg_evidence` row. -/
structure KGEvidence where
  id : Nat
  entity_id : Option Nat
  relationship_id : Option Nat
  document_id : Nat
  evidence_text : PyStr
  extraction_confidence : Rat

/-- The persistent store: each table as a list of rows in insertion
order, primary-key counters, and a log of the inputs of every
`embed_text` call made (to reason about which paths call the external
embedding collaborator). -/
structure KGState where
  entities : List KGEntity
  relationships : List KGRelationship
  evidence : List KGEvidence
  nextEntityId : Nat
  nextRelationshipId : Nat
  nextEvidenceId : Nat
  embedCalls : List PyStr

-- ── Storage service (`kg_storage.py`) ────────────────────────────────────────

/-- `KGStorageService._find_entity_by_name` (lines 212-221): first
non-deleted entity with the given canonical name and type. -/
def _find_entity_by_name (entities : List KGEntity) (canonical_name : PyStr)
    (entity_type : PyStr) : Option Nat :=
  (entities.find? (fun e =>
    e.canonical_name == canonical_name && e.entity_type == entity_type &&
      e.is_deleted == false)).map (fun e => e.id)

/-- `KGStorageService._find_entity_by_name_any_type` (lines 223-231). -/
def _find_entity_by_name_any_type (entities : List KGEntity)
    (canonical_name : PyStr) : Option Nat :=
  (entities.find? (fun e =>
    e.canonical_name == canonical_name && e.is_deleted == false)).map (fun e => e.id)

/-- Apply `f` to the first element satisfying `p` (the ORM mutates the
row returned by `.first()`). -/
def updateFirst {α : Type} (p : α → Bool) (f : α → α) : List α → List α
  | [] => []
  | x :: xs => if p x then f x :: xs else x :: updateFirst p f xs

/-- `KGStorageService._store_evidence` (lines 233-252). -/
def _store_evidence (s : KGState) (document_id : Nat) (evidence_text : PyStr)
    (confidence : Rat) (entity_id : Option Nat) (relationship_id : Option Nat) :
    KGState × Nat :=
  let ev : KGEvidence :=
    { id := s.nextEvidenceId
      entity_id := entity_id
      relationship_id := relationship_id
      document_id := document_id
      evidence_text := evidence_text
      extraction_confidence := confidence }
  ({ s with evidence := s.evidence ++ [ev], nextEvidenceId := s.nextEvidenceId + 1 },
   ev.id)

/-- The mutation block of the `_store_entity` update path
(`kg_storage.py` lines 91-99): raise confidence to the max, merge
attributes with existing values winning, backfill an empty
`location_text`, touch `updated_at`. -/
def mergeEntity (now : Nat) (entity : ExtractedEntity) (existing : KGEntity) : KGEntity :=
  { existing with
    confidence_score := max (pyOrZero existing.confidence_score) entity.confidence
    attributes := pyDictMerge entity.attributes existing.attributes
    location_text :=
      if pyTruthyStr entity.location_text && !pyTruthyStr existing.location_text then
        entity.location_text
      else existing.location_text
    updated_at := now }

/-- The `f"{entity.name} {entity.entity_type}"` embedding input of the
insert path (`kg_storage.py` line 112). -/
def embedInput (entity : ExtractedEntity) : PyStr :=
  entity.name ++ ' ' :: entity.entity_type

/-- `KGStorageService._store_entity` (`kg_storage.py` lines 72-135).
`embed` is the external `embed_text` collaborator; `now` the clock.
Returns the updated store and the entity id.  (The DB-level uniqueness
constraint over all rows, deleted ones included, is not modelled; it can
only reject inserts, which leaves every property proved below intact.)
The freshly inserted row of the insert path (lines 112-124): -/
def newEntityRow (embed : PyStr → List Rat) (now : Nat) (s : KGState)
    (entity : ExtractedEntity) : KGEntity :=
  { id := s.nextEntityId
    entity_type := entity.entity_type
    entity_subtype := entity.entity_subtype
    name := entity.name
    canonical_name := normalize_name entity.name
    attributes := entity.attributes
    location_text := entity.location_text
    confidence_score := entity.confidence
    extraction_method := pyOfString ("llm_extracted")
    embedding := embed (embedInput entity)
    created_at := now
    updated_at := now
    is_deleted := false }

def _store_entity (embed : PyStr → List Rat) (now : Nat) (s : KGState)
    (entity : ExtractedEntity) (document_id : Nat) : KGState × Nat :=
  match _find_entity_by_name s.entities (normalize_name entity.name) entity.entity_type with
  | some existing_id =>
    let s1 := { s with
      entities :=
        updateFirst (fun e => e.id == existing_id) (mergeEntity now entity)
          s.entities }
    let s2 := (_store_evidence s1 document_id entity.evidence_text entity.confidence
      (some existing_id) none).1
    (s2, existing_id)
  | none =>
    let new_entity := newEntityRow embed now s entity
    let s1 := { s with
      entities := s.entities ++ [new_entity]
      nextEntityId := s.nextEntityId + 1
      embedCalls := s.embedCalls ++ [embedInput entity] }
    let s2 := (_store_evidence s1 document_id entity.evidence_text entity.confidence
      (some new_entity.id) none).1
    (s2, new_entity.id)

/-- The relationship lookup of `_store_relationship` (`kg_storage.py`
lines 169-173): first row with the exact
(source, target, type) triple — the query has NO `is_deleted` filter. -/
def findRelTriple (rels : List KGRelationship) (sid tid : Nat) (rtype : PyStr) :
    Option KGRelationship :=
  rels.find? (fun r =>
    r.source_entity_id == sid && r.target_entity_id == tid &&
      r.relationship_type == rtype)

/-- The mutation block of the `_store_relationship` update path
(lines 176-181). -/
def mergeRelationship (now : Nat) (rel : ExtractedRelationship)
    (existing : KGRelationship) : KGRelationship :=
  { existing with
    confidence_score := max (pyOrZero existing.confidence_score) rel.confidence
    attributes := pyDictMerge rel.attributes existing.attributes
    updated_at := now }

/-- Endpoint resolution of `_store_relationship` (lines 150-158): typed
lookup first, then the looser untyped fallback.  (The source computes
both typed lookups before both fallbacks; per-endpoint composition is
the same function.) -/
def resolveEndpoint (entities : List KGEntity) (nm ty : PyStr) : Option Nat :=
  match _find_entity_by_name entities (normalize_name nm) ty with
  | some i => some i
  | none => _find_entity_by_name_any_type entities (normalize_name nm)

/-- The freshly inserted relationship row of the insert path
(`kg_storage.py` lines 193-200). -/
def newRelationshipRow (now : Nat) (s : KGState) (source_id target_id : Nat)
    (rel : ExtractedRelationship) : KGRelationship :=
  { id := s.nextRelationshipId
    source_entity_id := source_id
    target_entity_id := target_id
    relationship_type := rel.relationship_type
    attributes := rel.attributes
    confidence_score := rel.confidence
    extraction_method := pyOfString ("llm_extracted")
    created_at := now
    updated_at := now
    is_deleted := false }

/-- `KGStorageService._store_relationship` (`kg_storage.py` lines
137-210). -/
def _store_relationship (now : Nat) (s : KGState) (rel : ExtractedRelationship)
    (document_id : Nat) : KGState × Option Nat :=
  match resolveEndpoint s.entities rel.source_name rel.source_type,
      resolveEndpoint s.entities rel.target_name rel.target_type with
  | some source_id, some target_id =>
    (match findRelTriple s.relationships source_id target_id rel.relationship_type with
     | some existing =>
       let s1 := { s with
         relationships :=
           updateFirst (fun r =>
               r.source_entity_id == source_id && r.target_entity_id == target_id &&
                 r.relationship_type == rel.relationship_type)
             (mergeRelationship now rel) s.relationships }
       let s2 := (_store_evidence s1 document_id rel.evidence_text rel.confidence
         none (some existing.id)).1
       (s2, some existing.id)
     | none =>
       let new_rel := newRelationshipRow now s source_id target_id rel
       let s1 := { s with
         relationships := s.relationships ++ [new_rel]
         nextRelationshipId := s.nextRelationshipId + 1 }
       let s2 := (_store_evidence s1 document_id rel.evidence_text rel.confidence
         none (some new_rel.id)).1
       (s2, some new_rel.id))
  | _, _ => (s, none)

/-- The entity iteration of `store_extraction_results` (lines 48-54). -/
def entFold (embed : PyStr → List Rat) (now : Nat) (document_id : Nat)
    (acc : KGState × List Nat) (ent : ExtractedEntity) : KGState × List Nat :=
  let r := _store_entity embed now acc.1 ent document_id
  (r.1, acc.2 ++ [r.2])

/-- The relationship iteration of `store_extraction_results`
(lines 57-64): `None` ids (unresolvable endpoints) are not collected. -/
def relFold (now : Nat) (document_id : Nat)
    (acc : KGState × List Nat) (rel : ExtractedRelationship) : KGState × List Nat :=
  let r := _store_relationship now acc.1 rel document_id
  (r.1, match r.2 with
        | some rid => acc.2 ++ [rid]
        | none => acc.2)

/-- `KGStorageService.store_extraction_results` (`kg_storage.py` lines
25-70): entities first, then relationships; each candidate handled
independently.  (The per-candidate `try/except` rollback has nothing to
catch in this model: DB exceptions are not modelled.) -/
def store_extraction_results (embed : PyStr → List Rat) (now : Nat) (s : KGState)
    (document_id : Nat) (entities : List ExtractedEntity)
    (relationships : List ExtractedRelationship) : KGState × List Nat × List Nat :=
  let entStep := entities.foldl (entFold embed now document_id) (s, [])
  let relStep := relationships.foldl (relFold now document_id) (entStep.1, [])
  (relStep.1, entStep.2, relStep.2)

/-- One sequential `store_extraction_results` call, as a state
transformer over the store (a batch is a document id with its candidate
lists). -/
def runBatch (embed : PyStr → List Rat) (now : Nat) (st : KGState)
    (b : Nat × List ExtractedEntity × List ExtractedRelationship) : KGState :=
  (store_extraction_results embed now st b.1 b.2.1 b.2.2).1

-- ── Invariants ───────────────────────────────────────────────────────────────

/-- The dedup key of an entity row. -/
def entityKey (e : KGEntity) : PyStr × PyStr := (e.canonical_name, e.entity_type)

/-- The dedup invariant: no two non-deleted entity rows share
(canonical_name, entity_type). -/
def DedupInv (es : List KGEntity) : Prop :=
  ((es.filter (fun e => !e.is_deleted)).map entityKey).Pairwise (fun a b => a ≠ b)

-- ── Concrete fixtures for witnesses and counterexamples ─────────────────────

/-- A trivial embedding collaborator for concrete runs. -/
def zeroEmbed : PyStr → List Rat := fun _ => [0]

/-- An empty store. -/
def emptyKGState : KGState :=
  { entities := []
    relationships := []
    evidence := []
    nextEntityId := 1
    nextRelationshipId := 1
    nextEvidenceId := 1
    embedCalls := [] }

/-- A concrete extracted entity: the SES agency. -/
def entSES : ExtractedEntity :=
  { entity_type := pyOfString ("Agency")
    name := pyOfString ("SES")
    entity_subtype := none
    attributes := []
    confidence := mkRat 9 10
    evidence_text := pyOfString ("The SES serves the Riverside community")
    location_text := none }

/-- A concrete duplicate candidate for the same canonical key with lower
confidence. -/
def entSESlow : ExtractedEntity :=
  { entity_type := pyOfString ("Agency")
    name := pyOfString ("S.E.S")
    entity_subtype := none
    attributes := [(pyOfString ("region"), JVal.jstr (pyOfString ("riverside")))]
    confidence := mkRat 1 10
    evidence_text := pyOfString ("the S.E.S supported evacuation")
    location_text := some (pyOfString ("Riverside")) }

/-- A pair of concrete live entity rows. -/
def rowSES : KGEntity :=
  { id := 1
    entity_type := pyOfString ("Agency")
    entity_subtype := none
    name := pyOfString ("SES")
    canonical_name := pyOfString ("ses")
    attributes := []
    location_text := none
    confidence_score := mkRat 9 10
    extraction_method := pyOfString ("llm_extracted")
    embedding := [0]
    created_at := 0
    updated_at := 0
    is_deleted := false }

def rowRiverside : KGEntity :=
  { id := 2
    entity_type := pyOfString ("Community")
    entity_subtype := none
    name := pyOfString ("Riverside")
    canonical_name := pyOfString ("riverside")
    attributes := []
    location_text := none
    confidence_score := mkRat 8 10
    extraction_method := pyOfString ("llm_extracted")
    embedding := [0]
    created_at := 0
    updated_at := 0
    is_deleted := false }

/-- A soft-deleted relationship row carrying the (1, 2, serves) triple. -/
def rowServesDeleted : KGRelationship :=
  { id := 5
    source_entity_id := 1
    target_entity_id := 2
    relationship_type := pyOfString ("serves")
    attributes := []
    confidence_score := mkRat 2 5
    extraction_method := pyOfString ("llm_extracted")
    created_at := 0
    updated_at := 0
    is_deleted := true }

/-- A store whose only relationship with the (1, 2, serves) triple is
soft-deleted. -/
def stateDeletedRel : KGState :=
  { entities := [rowSES, rowRiverside]
    relationships := [rowServesDeleted]
    evidence := []
    nextEntityId := 3
    nextRelationshipId := 6
    nextEvidenceId := 1
    embedCalls := [] }

/-- A concrete relationship candidate whose endpoints resolve to rows 1
and 2. -/
def relServes : ExtractedRelationship :=
  { source_name := pyOfString ("SES")
    source_type := pyOfString ("Agency")
    target_name := pyOfString ("Riverside")
    target_type := pyOfString ("Community")
    relationship_type := pyOfString ("serves")
    attributes := []
    confidence := mkRat 9 10
    evidence_text := pyOfString ("The SES serves the Riverside community") }

/-- A store holding only the live SES row. -/
def stateWithSES : KGState :=
  { entities := [rowSES]
    relationships := []
    evidence := []
    nextEntityId := 2
    nextRelationshipId := 1
    nextEvidenceId := 1
    embedCalls := [] }

/-- Lookup of a row by primary key (`db.query(KGEntity).filter(KGEntity.id == ...)
.first()`). -/
def findById (es : List KGEntity) (i : Nat) : Option KGEntity :=
  es.find? (fun e => e.id == i)

/-- Parsed-output fixtures: a well-formed entity item without a
confidence key. -/
def kvsGood : AttrMap :=
  [(pyOfString ("entity_type"), JVal.jstr (pyOfString ("Community"))),
   (pyOfString ("name"), JVal.jstr (pyOfString ("Riverside")))]

def itemGood : JVal := JVal.jobj kvsGood

/-- An entity item whose confidence is JSON `null` (`float(None)` raises
`TypeError`). -/
def kvsNullConf : AttrMap :=
  [(pyOfString ("entity_type"), JVal.jstr (pyOfString ("Agency"))),
   (pyOfString ("name"), JVal.jstr (pyOfString ("SES"))),
   (pyOfString ("confidence"), JVal.jnull)]

def itemNullConf : JVal := JVal.jobj kvsNullConf

/-- An entity item with an out-of-range confidence of 1.5. -/
def kvsHighConf : AttrMap :=
  [(pyOfString ("entity_type"), JVal.jstr (pyOfString ("Agency"))),
   (pyOfString ("name"), JVal.jstr (pyOfString ("SES"))),
   (pyOfString ("confidence"), JVal.jnum (3/2))]

def itemHighConf : JVal := JVal.jobj kvsHighConf

/-- The candidates the parser produces from the fixtures above. -/
def entGoodParsed : ExtractedEntity :=
  { entity_type := pyOfString ("Community")
    name := pyOfString ("Riverside")
    entity_subtype := none
    attributes := []
    confidence := 1/2
    evidence_text := []
    location_text := none }

def entHighParsed : ExtractedEntity :=
  { entity_type := pyOfString ("Agency")
    name := pyOfString ("SES")
    entity_subtype := none
    attributes := []
    confidence := 3/2
    evidence_text := []
    location_text := none }

/-- Relationship-item fixtures: well-formed without a confidence key,
and with a `null` confidence. -/
def kvsRelGood : AttrMap :=
  [(pyOfString ("source_name"), JVal.jstr (pyOfString ("SES"))),
   (pyOfString ("target_name"), JVal.jstr (pyOfString ("Riverside"))),
   (pyOfString ("relationship_type"), JVal.jstr (pyOfString ("serves")))]

def itemRelGood : JVal := JVal.jobj kvsRelGood

def kvsRelNull : AttrMap :=
  [(pyOfString ("source_name"), JVal.jstr (pyOfString ("SES"))),
   (pyOfString ("target_name"), JVal.jstr (pyOfString ("Riverside"))),
   (pyOfString ("relationship_type"), JVal.jstr (pyOfString ("serves"))),
   (pyOfString ("confidence"), JVal.jnull)]

def itemRelNull : JVal := JVal.jobj kvsRelNull

def relGoodParsed : ExtractedRelationship :=
  { source_name := pyOfString ("SES")
    source_type := []
    target_name := pyOfString ("Riverside")
    target_type := []
    relationship_type := pyOfString ("serves")
    attributes := []
    confidence := 1/2
    evidence_text := [] }

/-- A nonempty stripped paragraph of the input: an element of the
input's blank-line split, stripped, that did not strip to empty. -/
def StripParaOf (content : PyStr) (p : PyStr) : Prop :=
  p ∈ (pySplitParas content).map pyStrip ∧ p.isEmpty = false

/-- The chunk-size discipline `_chunk_text` actually guarantees on an
input text: a chunk is within the bound, or it is the paragraph-join of
at most two nonempty stripped paragraphs of that input (a single
oversized paragraph kept whole, or the carried-over overlap paragraph
together with the paragraph that triggered the flush), or every
paragraph of the input strips to empty and the input is returned whole. -/
def GoodChunk (content : PyStr) (max_chars : Nat) (c : PyStr) : Prop :=
  c.length ≤ max_chars ∨
  (∃ ps : List PyStr, c = joinParas ps ∧ ps.length ≤ 2 ∧ ps ≠ [] ∧
    ∀ p ∈ ps, StripParaOf content p) ∨
  ((∀ p ∈ pySplitParas content, (pyStrip p).isEmpty = true) ∧ c = content)

/-- The `current_len` bookkeeping value of a paragraph list: each
paragraph counts its length plus 2 for the separator. -/
def lenAcc (cur : List PyStr) : Nat := (cur.map (fun p => p.length + 2)).sum

/-- Two 2900-character paragraphs. -/
def repA : PyStr := List.replicate 2900 'a'

def repB : PyStr := List.replicate 2900 'b'

/-- A 5802-character document made of the two paragraphs. -/
def bigInput : PyStr := repA ++ '
' :: '
' :: repB

-- ── Query service (`kg_query.py`) ────────────────────────────────────────────

/-- Contiguous-substring containment. -/
def containsSub (needle : PyStr) : PyStr → Bool
  | [] => needle.isEmpty
  | c :: rest => needle.isPrefixOf (c :: rest) || containsSub needle rest

/-- SQL `ILIKE '%query%'`: case-insensitive substring containment.
(SQL wildcard characters inside the query are not modelled; no theorem
below evaluates them.) -/
def ilike (q s : PyStr) : Bool := containsSub (pyLower q) (pyLower s)

/-- `ILIKE` against a nullable column: SQL `NULL` never matches. -/
def ilikeOpt (q : PyStr) : Option PyStr → Bool
  | none => false
  | some s => ilike q s

/-- The shared `base_filter` of both phases of `search_entities`
(`kg_query.py` lines 202-204): non-deleted, plus the optional type
filter (`if entity_types:` — an empty filter list is falsy in Python
and adds no constraint). -/
def baseFilter (entity_types : Option (List PyStr)) (e : KGEntity) : Bool :=
  e.is_deleted == false &&
    (match entity_types with
     | some (t :: ts) => (t :: ts).contains e.entity_type
     | _ => true)

/-- The phase-1 text filter of `search_entities` (lines 211-216). -/
def searchTextPred (query : PyStr) (entity_types : Option (List PyStr))
    (e : KGEntity) : Bool :=
  baseFilter entity_types e && (ilike query e.name || ilikeOpt query e.location_text)

/-- Insert before the first strictly-lower-confidence element. -/
def insertByConf (e : KGEntity) : List KGEntity → List KGEntity
  | [] => [e]
  | x :: xs =>
    if x.confidence_score ≤ e.confidence_score then e :: x :: xs
    else x :: insertByConf e xs

/-- Stable insertion sort by confidence descending, modelling
`ORDER BY confidence_score DESC` (the SQL leaves tie order unspecified;
this fixes the stable one). -/
def sortByConfDesc : List KGEntity → List KGEntity
  | [] => []
  | x :: xs => insertByConf x (sortByConfDesc xs)

/-- Phase 1 of `search_entities` (lines 207-220): ILIKE matches ordered
by confidence descending and limited to `limit`. -/
def textMatches (entities : List KGEntity) (query : PyStr)
    (entity_types : Option (List PyStr)) (limit : Nat) : List KGEntity :=
  ((sortByConfDesc (entities.filter (searchTextPred query entity_types))).take limit)

/-- The phase-1 accumulation loop body (lines 221-224): append unless
the id was already collected. -/
def addIfNew (acc : List KGEntity) (e : KGEntity) : List KGEntity :=
  if (acc.map (fun x => x.id)).contains e.id then acc else acc ++ [e]

/-- The phase-2 accumulation loop body (lines 237-240): append unless
seen, and only while below `limit`.  (`seen_ids` always equals the ids
of `results`, so it is modelled as such.) -/
def addIfNewCapped (limit : Nat) (acc : List KGEntity) (e : KGEntity) : List KGEntity :=
  if !(acc.map (fun x => x.id)).contains e.id && acc.length < limit then acc ++ [e]
  else acc

/-- `KGQueryService.search_entities` (`kg_query.py` lines 187-242).
The phase-2 vector query is modelled by the oracle `vecRank`: an
arbitrary ordering of the entity table as returned by `ORDER BY
l2_distance(embedding, embed_text(query))` — vector distance is an
external collaborator (spec §6), so every theorem below holds for every
possible ranking.  The phase-2 query applies the same base filter and
fetches `remaining + len(seen_ids)` rows. -/
def search_entities (entities : List KGEntity) (query : PyStr)
    (entity_types : Option (List PyStr)) (limit : Nat)
    (vecRank : List KGEntity) : List KGEntity :=
  let text_matches := textMatches entities query entity_types limit
  let results := text_matches.foldl addIfNew []
  let remaining := limit - results.length
  if 0 < remaining then
    let vector_matches :=
      (vecRank.filter (baseFilter entity_types)).take (remaining + results.length)
    vector_matches.foldl (addIfNewCapped limit) results
  else results

-- ── Network traversal (`kg_query.py` lines 333-425) ──────────────────────────

/-- A node payload of the network output (lines 364-370). -/
structure NetNode where
  id : Nat
  name : PyStr
  entity_type : PyStr
  entity_subtype : Option PyStr
  confidence_score : Rat

def mkNetNode (e : KGEntity) : NetNode :=
  { id := e.id
    name := e.name
    entity_type := e.entity_type
    entity_subtype := e.entity_subtype
    confidence_score := e.confidence_score }

/-- An edge payload (lines 383-389). -/
structure NetEdge where
  id : Nat
  source : Nat
  target : Nat
  relationship_type : PyStr
  confidence_score : Rat

def mkNetEdge (r : KGRelationship) : NetEdge :=
  { id := r.id
    source := r.source_entity_id
    target := r.target_entity_id
    relationship_type := r.relationship_type
    confidence_score := r.confidence_score }

/-- The live-entity load of the BFS (lines 357-360). -/
def findLiveEntity (es : List KGEntity) (i : Nat) : Option KGEntity :=
  es.find? (fun e => e.id == i && e.is_deleted == false)

/-- Non-deleted outgoing relationships of a node (lines 374-381). -/
def outgoingOf (rels : List KGRelationship) (i : Nat) : List KGRelationship :=
  rels.filter (fun r => r.source_entity_id == i && r.is_deleted == false)

/-- Non-deleted incoming relationships of a node (lines 394-400). -/
def incomingOf (rels : List KGRelationship) (i : Nat) : List KGRelationship :=
  rels.filter (fun r => r.target_entity_id == i && r.is_deleted == false)

/-- The `while queue` BFS loop of `get_entity_network` (lines 350-411),
with explicit fuel; `networkFuel` below always suffices, and every
property proved about the traversal holds for every fuel value.  The
queue holds (entity id, depth) pairs; `visited` is the visited-id set. -/
def netLoop (st : KGState) (max_depth : Nat) :
    Nat → List (Nat × Nat) → List Nat → List NetNode → List NetEdge →
      List NetNode × List NetEdge
  | 0, _, _, nodes, edges => (nodes, edges)
  | _ + 1, [], _, nodes, edges => (nodes, edges)
  | fuel + 1, (current, depth) :: queue, visited, nodes, edges =>
    if visited.contains current || max_depth < depth then
      netLoop st max_depth fuel queue visited nodes edges
    else
      let visited := current :: visited
      match findLiveEntity st.entities current with
      | none => netLoop st max_depth fuel queue visited nodes edges
      | some entity =>
        let nodes := nodes ++ [mkNetNode entity]
        if depth < max_depth then
          let outgoing := outgoingOf st.relationships current
          let edges := edges ++ outgoing.map mkNetEdge
          let queue := queue ++
            ((outgoing.filter (fun r => !visited.contains r.target_entity_id)).map
              (fun r => (r.target_entity_id, depth + 1)))
          let incoming := incomingOf st.relationships current
          let edges := edges ++ incoming.map mkNetEdge
          let queue := queue ++
            ((incoming.filter (fun r => !visited.contains r.source_entity_id)).map
              (fun r => (r.source_entity_id, depth + 1)))
          netLoop st max_depth fuel queue visited nodes edges
        else
          netLoop st max_depth fuel queue visited nodes edges

/-- The edge-dedup pass (lines 414-420): keep the first edge per
(source, target, type). -/
def dedupEdges (seen : List (Nat × Nat × PyStr)) : List NetEdge → List NetEdge
  | [] => []
  | e :: rest =>
    if seen.contains (e.source, e.target, e.relationship_type) then
      dedupEdges seen rest
    else e :: dedupEdges ((e.source, e.target, e.relationship_type) :: seen) rest

/-- Fuel that always outlasts the loop: at most `1 + 2 * |rels|` distinct
ids can ever be enqueued-and-expanded (the start plus a relationship
endpoint per direction), each expansion enqueues at most `2 * |rels|`
entries, and every iteration consumes one entry. -/
def networkFuel (st : KGState) : Nat :=
  (2 * st.relationships.length + 2) * (2 * st.relationships.length + 2)

/-- `KGQueryService.get_entity_network` (`kg_query.py` lines 333-425). -/
def get_entity_network (st : KGState) (entity_id : Nat) (max_depth : Nat) :
    List NetNode × List NetEdge :=
  let r := netLoop st max_depth (networkFuel st) [(entity_id, 0)] [] [] []
  (r.1, dedupEdges [] r.2)

/-- Undirected adjacency through a non-deleted relationship row. -/
def NetAdj (st : KGState) (a b : Nat) : Prop :=
  ∃ r ∈ st.relationships, r.is_deleted = false ∧
    ((r.source_entity_id = a ∧ r.target_entity_id = b) ∨
     (r.source_entity_id = b ∧ r.target_entity_id = a))

/-- `t` is reachable from `s` within `k` hops of `NetAdj`. -/
def ReachWithin (st : KGState) (s : Nat) : Nat → Nat → Prop
  | 0, t => t = s
  | k + 1, t => ReachWithin st s k t ∨ ∃ m, ReachWithin st s k m ∧ NetAdj st m t

/-- A filler entity whose name contains the query with high confidence. -/
def fillerRow (i : Nat) : KGEntity :=
  { id := i + 10
    entity_type := pyOfString ("Agency")
    entity_subtype := none
    name := pyOfString ("ses team")
    canonical_name := pyOfString ("ses team")
    attributes := []
    location_text := none
    confidence_score := mkRat 9 10
    extraction_method := pyOfString ("llm_extracted")
    embedding := [0]
    created_at := 0
    updated_at := 0
    is_deleted := false }

/-- A low-confidence entity named exactly "ses". -/
def exactRow : KGEntity :=
  { id := 100
    entity_type := pyOfString ("Agency")
    entity_subtype := none
    name := pyOfString ("ses")
    canonical_name := pyOfString ("ses")
    attributes := []
    location_text := none
    confidence_score := mkRat 1 10
    extraction_method := pyOfString ("llm_extracted")
    embedding := [0]
    created_at := 0
    updated_at := 0
    is_deleted := false }

/-- A store with twenty high-confidence substring matches crowding out
the exact match. -/
def crowdedEntities : List KGEntity := (List.range 20).map fillerRow ++ [exactRow]

/-- A soft-deleted copy of the Riverside row and a live relationship
pointing at it. -/
def rowRiversideDel : KGEntity := { rowRiverside with is_deleted := true }

def rowServesLive : KGRelationship := { rowServesDeleted with id := 6, is_deleted := false }

/-- A store where a live relationship's opposite endpoint is
soft-deleted. -/
def stateDangling : KGState :=
  { entities := [rowSES, rowRiversideDel]
    relationships := [rowServesLive]
    evidence := []
    nextEntityId := 3
    nextRelationshipId := 7
    nextEvidenceId := 1
    embedCalls := [] }

-- ── Supporting lemmas for canonicalization ───────────────────────────────────

theorem toNat_ofNat_of_valid {n : Nat} (h : n.isValidChar) :
    (Char.ofNat n).toNat = n := by
  unfold Char.ofNat
  rw [dif_pos h]
  rfl

theorem pyLowerChar_idem (c : Char) : pyLowerChar (pyLowerChar c) = pyLowerChar c := by
  unfold pyLowerChar
  split
  · rename_i h
    have hv : Nat.isValidChar (c.toNat + 32) := by
      left
      omega
    have ht : (Char.ofNat (c.toNat + 32)).toNat = c.toNat + 32 :=
      toNat_ofNat_of_valid hv
    rw [if_neg]
    rw [ht]
    omega
  · rfl

theorem pyLowerChar_space : pyLowerChar ' ' = ' ' := by decide

/-- Every character emitted by `collapseWsAux` is a space or comes from
the input. -/
theorem mem_collapseWsAux {c : Char} :
    ∀ (b : Bool) (l : PyStr), c ∈ collapseWsAux b l → c = ' ' ∨ c ∈ l := by
  intro b l
  induction l generalizing b with
  | nil =>
    intro h
    cases b <;> simp [collapseWsAux] at h
  | cons a rest ih =>
    intro h
    by_cases ha : pyIsSpace a = true
    · cases b with
      | true =>
        rw [collapseWsAux, if_pos ha] at h
        rcases ih true h with h1 | h2
        · exact Or.inl h1
        · exact Or.inr (List.mem_cons_of_mem _ h2)
      | false =>
        rw [collapseWsAux, if_pos ha] at h
        rcases List.mem_cons.mp h with h1 | h2
        · exact Or.inl h1
        · rcases ih true h2 with h3 | h4
          · exact Or.inl h3
          · exact Or.inr (List.mem_cons_of_mem _ h4)
    · have hb : collapseWsAux b (a :: rest) = a :: collapseWsAux false rest := by
        cases b <;> rw [collapseWsAux, if_neg ha]
      rw [hb] at h
      rcases List.mem_cons.mp h with h1 | h2
      · exact Or.inr (h1 ▸ List.mem_cons_self a rest)
      · rcases ih false h2 with h3 | h4
        · exact Or.inl h3
        · exact Or.inr (List.mem_cons_of_mem _ h4)

theorem mem_pyStrip {c : Char} {l : PyStr} (h : c ∈ pyStrip l) : c ∈ l := by
  unfold pyStrip at h
  rw [List.mem_reverse] at h
  have h1 := (List.dropWhile_sublist (l := (l.dropWhile pyIsSpace).reverse) pyIsSpace).mem h
  rw [List.mem_reverse] at h1
  exact (List.dropWhile_sublist pyIsSpace).mem h1

/-- The adjacency relation of a whitespace-collapsed string:
no two neighbouring whitespace characters. -/
def NoTwoSpaces (a b : Char) : Prop :=
  ¬(pyIsSpace a = true ∧ pyIsSpace b = true)

/-- Every character emitted by `collapseWsAux` is a plain space or is
not whitespace at all. -/
theorem collapseWsAux_space_eq {c : Char} :
    ∀ (b : Bool) (l : PyStr), c ∈ collapseWsAux b l → c = ' ' ∨ pyIsSpace c = false := by
  intro b l
  induction l generalizing b with
  | nil =>
    intro h
    cases b <;> simp [collapseWsAux] at h
  | cons a rest ih =>
    intro h
    by_cases ha : pyIsSpace a = true
    · cases b with
      | true =>
        rw [collapseWsAux, if_pos ha] at h
        exact ih true h
      | false =>
        rw [collapseWsAux, if_pos ha] at h
        rcases List.mem_cons.mp h with h1 | h2
        · exact Or.inl h1
        · exact ih true h2
    · have hb : collapseWsAux b (a :: rest) = a :: collapseWsAux false rest := by
        cases b <;> rw [collapseWsAux, if_neg ha]
      rw [hb] at h
      rcases List.mem_cons.mp h with h1 | h2
      · exact Or.inr (h1 ▸ Bool.of_not_eq_true ha)
      · exact ih false h2

/-- The head of a `collapseWsAux true` output is never whitespace. -/
theorem collapseWsAux_true_head :
    ∀ (l : PyStr) (d : Char), (collapseWsAux true l).head? = some d → pyIsSpace d = false := by
  intro l
  induction l with
  | nil => intro d h; simp [collapseWsAux] at h
  | cons a rest ih =>
    intro d h
    by_cases ha : pyIsSpace a = true
    · rw [collapseWsAux, if_pos ha] at h
      exact ih d h
    · rw [collapseWsAux, if_neg ha] at h
      simp only [List.head?_cons, Option.some.injEq] at h
      exact h ▸ Bool.of_not_eq_true ha

/-- `collapseWsAux` never emits two adjacent whitespace characters. -/
theorem collapseWsAux_chain :
    ∀ (b : Bool) (l : PyStr), (collapseWsAux b l).Chain' NoTwoSpaces := by
  intro b l
  induction l generalizing b with
  | nil => cases b <;> simp [collapseWsAux]
  | cons a rest ih =>
    by_cases ha : pyIsSpace a = true
    · cases b with
      | true =>
        rw [collapseWsAux, if_pos ha]
        exact ih true
      | false =>
        rw [collapseWsAux, if_pos ha]
        refine List.chain'_cons'.mpr ⟨?_, ih true⟩
        intro d hd
        intro hcontra
        have := collapseWsAux_true_head rest d hd
        rw [this] at hcontra
        exact Bool.false_ne_true hcontra.2
    · have hb : collapseWsAux b (a :: rest) = a :: collapseWsAux false rest := by
        cases b <;> rw [collapseWsAux, if_neg ha]
      rw [hb]
      refine List.chain'_cons'.mpr ⟨?_, ih false⟩
      intro d _
      intro hcontra
      exact ha hcontra.1

/-- On a string whose whitespace is already canonical (every whitespace
character is a plain space, no two adjacent), `collapseWsAux` is the
identity. -/
theorem collapseWsAux_id :
    ∀ l : PyStr, (∀ c ∈ l, pyIsSpace c = true → c = ' ') → l.Chain' NoTwoSpaces →
      (collapseWsAux false l = l ∧
        ((∀ d ∈ l.head?, pyIsSpace d = false) → collapseWsAux true l = l)) := by
  intro l
  induction l with
  | nil => exact fun _ _ => ⟨rfl, fun _ => rfl⟩
  | cons a rest ih =>
    intro h1 h2
    have h1' : ∀ c ∈ rest, pyIsSpace c = true → c = ' ' :=
      fun c hc => h1 c (List.mem_cons_of_mem _ hc)
    have h2' : rest.Chain' NoTwoSpaces := (List.chain'_cons'.mp h2).2
    have ihr := ih h1' h2'
    constructor
    · by_cases ha : pyIsSpace a = true
      · rw [collapseWsAux, if_pos ha]
        have haeq : a = ' ' := h1 a (List.mem_cons_self a rest) ha
        have hrest : collapseWsAux true rest = rest := by
          refine ihr.2 ?_
          intro d hd
          have hrel := (List.chain'_cons'.mp h2).1 d hd
          by_contra hds
          exact hrel ⟨ha, Bool.not_eq_false _ ▸ Bool.of_not_eq_false hds⟩
        rw [hrest, haeq]
      · rw [collapseWsAux, if_neg ha, ihr.1]
    · intro hhead
      have ha : pyIsSpace a = false := hhead a (by simp)
      rw [collapseWsAux, if_neg (by simp [ha]), ihr.1]

/-- Mapping a function that fixes every element of a list is the identity. -/
theorem map_id_of_fixed {α : Type} {f : α → α} :
    ∀ l : List α, (∀ c ∈ l, f c = c) → l.map f = l := by
  intro l
  induction l with
  | nil => exact fun _ => rfl
  | cons a rest ih =>
    intro h
    simp only [List.map_cons]
    rw [h a (List.mem_cons_self a rest), ih (fun c hc => h c (List.mem_cons_of_mem _ hc))]

/-- `NoTwoSpaces` chains survive `pyStrip` (a suffix of a reversal of a
suffix of a reversal). -/
theorem chain_pyStrip {l : PyStr} (h : l.Chain' NoTwoSpaces) :
    (pyStrip l).Chain' NoTwoSpaces := by
  have hsymm : ∀ {m : PyStr}, m.Chain' NoTwoSpaces → m.reverse.Chain' NoTwoSpaces := by
    intro m hm
    rw [List.chain'_reverse]
    exact hm.imp (fun _ _ hab hba => hab ⟨hba.2, hba.1⟩)
  unfold pyStrip
  exact hsymm ((hsymm (h.suffix (List.dropWhile_suffix pyIsSpace))).suffix
    (List.dropWhile_suffix pyIsSpace))

/-- Characterization of the characters of a canonical name:
each is fixed by lower-casing, passes the punctuation filter, and any
whitespace among them is a plain space. -/
theorem normalize_name_chars {s : PyStr} :
    ∀ c ∈ normalize_name s,
      pyLowerChar c = c ∧
        (pyIsWordChar c || pyIsSpace c || c == '-') = true ∧
        (pyIsSpace c = true → c = ' ') := by
  intro c hc
  have hsp : pyIsSpace c = true → c = ' ' := by
    intro hcs
    rcases collapseWsAux_space_eq false _ hc with h | h
    · exact h
    · rw [h] at hcs
      exact absurd hcs Bool.false_ne_true
  rcases mem_collapseWsAux false _ hc with hsp' | hmem
  · refine ⟨hsp' ▸ pyLowerChar_space, ?_, hsp⟩
    rw [hsp']
    decide
  · have hfil := List.mem_filter.mp hmem
    have hlow : c ∈ pyLower s := mem_pyStrip hfil.1
    have ⟨d, _, hd⟩ := List.mem_map.mp hlow
    exact ⟨hd ▸ pyLowerChar_idem d, hfil.2, hsp⟩

/-- Applying the canonicalizer to its own output only strips the
boundary whitespace that punctuation removal may have exposed. -/
theorem normalize_name_twice (s : PyStr) :
    normalize_name (normalize_name s) = pyStrip (normalize_name s) := by
  have hchars := normalize_name_chars (s := s)
  have hchain : (normalize_name s).Chain' NoTwoSpaces := collapseWsAux_chain false _
  have hlow : pyLower (normalize_name s) = normalize_name s :=
    map_id_of_fixed _ (fun c hc => (hchars c hc).1)
  have hfilter : removePunct (pyStrip (normalize_name s)) = pyStrip (normalize_name s) :=
    List.filter_eq_self.mpr (fun c hc => (hchars c (mem_pyStrip hc)).2.1)
  have hid : collapseWsAux false (pyStrip (normalize_name s)) = pyStrip (normalize_name s) :=
    (collapseWsAux_id (pyStrip (normalize_name s))
      (fun c hc hs => (hchars c (mem_pyStrip hc)).2.2 hs)
      (chain_pyStrip hchain)).1
  show collapseWs (removePunct (pyStrip (pyLower (normalize_name s)))) =
    pyStrip (normalize_name s)
  rw [hlow, hfilter]
  exact hid

/-- C2 (corrected, counterexample): canonicalization is NOT idempotent.
On `". a ."` the punctuation strip exposes boundary spaces after the
initial `strip()` has already run, so `_normalize_name` returns
`" a "`, while a second application returns `"a"`. -/
theorem normalize_name_not_idempotent :
    normalize_name (normalize_name (pyOfString (". a ."))) ≠
      normalize_name (pyOfString (". a .")) := by decide

/-- C2 (corrected, amended claim): canonicalization is idempotent up to
one final strip — `canon (canon x) = strip (canon x)` for every string
`x`, and it is exactly idempotent whenever the canonical form has no
boundary whitespace; case/whitespace/punctuation variants of the same
name (`"SES "`, `"ses"`, `"S.E.S"`) still map to the same canonical
key `"ses"`. -/
theorem normalize_name_idem_up_to_strip :
    (∀ s : PyStr, normalize_name (normalize_name s) = pyStrip (normalize_name s)) ∧
    normalize_name (pyOfString ("SES ")) = pyOfString ("ses") ∧
    normalize_name (pyOfString ("ses")) = pyOfString ("ses") ∧
    normalize_name (pyOfString ("S.E.S")) = pyOfString ("ses") :=
  ⟨normalize_name_twice, by decide, by decide, by decide⟩

-- ── Storage lemmas ───────────────────────────────────────────────────────────

/-- The live-key projection of the entity table is untouched by
`updateFirst` with a key- and deletion-preserving update. -/
theorem filtmap_updateFirst (p : KGEntity → Bool) (f : KGEntity → KGEntity)
    (hkey : ∀ e, entityKey (f e) = entityKey e)
    (hdel : ∀ e, (f e).is_deleted = e.is_deleted) :
    ∀ es : List KGEntity,
      ((updateFirst p f es).filter (fun e => !e.is_deleted)).map entityKey =
        (es.filter (fun e => !e.is_deleted)).map entityKey := by
  intro es
  induction es with
  | nil => rfl
  | cons x xs ih =>
    by_cases hp : p x = true
    · rw [updateFirst, if_pos hp]
      by_cases hd : x.is_deleted = true
      · rw [List.filter_cons, List.filter_cons]
        simp [hdel, hd]
      · rw [List.filter_cons, List.filter_cons]
        simp [hdel, hd, hkey, Bool.eq_false_iff.mpr hd]
    · rw [updateFirst, if_neg hp]
      by_cases hd : x.is_deleted = true <;>
        simp [List.filter_cons, hd, ih]

theorem mergeEntity_key (now : Nat) (ent : ExtractedEntity) (e : KGEntity) :
    entityKey (mergeEntity now ent e) = entityKey e := rfl

theorem mergeEntity_is_deleted (now : Nat) (ent : ExtractedEntity) (e : KGEntity) :
    (mergeEntity now ent e).is_deleted = e.is_deleted := rfl

/-- The update path and insert path of `_store_entity`, as equations on
the resulting entity table. -/
theorem store_entity_entities_update (embed : PyStr → List Rat) (now : Nat) (s : KGState)
    (ent : ExtractedEntity) (doc : Nat) (eid : Nat)
    (hfind : _find_entity_by_name s.entities (normalize_name ent.name) ent.entity_type =
      some eid) :
    (_store_entity embed now s ent doc).1.entities =
      updateFirst (fun e => e.id == eid) (mergeEntity now ent) s.entities := by
  simp only [_store_entity, hfind, _store_evidence]

theorem store_entity_entities_insert (embed : PyStr → List Rat) (now : Nat) (s : KGState)
    (ent : ExtractedEntity) (doc : Nat)
    (hfind : _find_entity_by_name s.entities (normalize_name ent.name) ent.entity_type =
      none) :
    (_store_entity embed now s ent doc).1.entities =
      s.entities ++ [newEntityRow embed now s ent] := by
  simp only [_store_entity, hfind, _store_evidence]

/-- `_store_entity` preserves the dedup invariant: the update path
rewrites a row in place without touching keys or deletion flags, and the
insert path runs only when no live row carries the key. -/
theorem store_entity_dedup (embed : PyStr → List Rat) (now : Nat) (s : KGState)
    (ent : ExtractedEntity) (doc : Nat) (h : DedupInv s.entities) :
    DedupInv (_store_entity embed now s ent doc).1.entities := by
  cases hfind : _find_entity_by_name s.entities (normalize_name ent.name) ent.entity_type with
  | some eid =>
    rw [store_entity_entities_update embed now s ent doc eid hfind]
    unfold DedupInv
    rw [filtmap_updateFirst _ _ (mergeEntity_key now ent) (mergeEntity_is_deleted now ent)]
    exact h
  | none =>
    rw [store_entity_entities_insert embed now s ent doc hfind]
    unfold DedupInv
    rw [List.filter_append, List.map_append]
    have hnewdel : (newEntityRow embed now s ent).is_deleted = false := rfl
    have hnewkey : entityKey (newEntityRow embed now s ent) =
      (normalize_name ent.name, ent.entity_type) := rfl
    have hfil : List.filter (fun e => !e.is_deleted) [newEntityRow embed now s ent] =
        [newEntityRow embed now s ent] := by
      simp [List.filter_cons, hnewdel]
    rw [hfil]
    apply List.pairwise_append.mpr
    refine ⟨h, List.pairwise_singleton _ _, ?_⟩
    intro a ha b hb
    simp only [List.map_cons, List.map_nil, List.mem_singleton] at hb
    subst hb
    have ⟨e, he, hae⟩ := List.mem_map.mp ha
    have hef := List.mem_filter.mp he
    have hfindnone : s.entities.find? (fun e =>
        e.canonical_name == normalize_name ent.name && e.entity_type == ent.entity_type &&
          e.is_deleted == false) = none := by
      cases hcase : s.entities.find? (fun e =>
          e.canonical_name == normalize_name ent.name && e.entity_type == ent.entity_type &&
            e.is_deleted == false) with
      | none => rfl
      | some v =>
        rw [_find_entity_by_name, hcase] at hfind
        exact absurd hfind (by simp)
    have hnone := List.find?_eq_none.mp hfindnone
    intro hcontra
    apply hnone e hef.1
    rw [hnewkey] at hcontra
    have h1 : e.canonical_name = normalize_name ent.name := by
      have := congrArg Prod.fst hcontra
      rw [← hae] at this
      simpa [entityKey] using this
    have h2 : e.entity_type = ent.entity_type := by
      have := congrArg Prod.snd hcontra
      rw [← hae] at this
      simpa [entityKey] using this
    have h3 : e.is_deleted = false := by
      have := hef.2
      simpa using this
    simp [h1, h2, h3]

/-- `updateFirst` preserves length. -/
theorem updateFirst_length {α : Type} (p : α → Bool) (f : α → α) :
    ∀ l : List α, (updateFirst p f l).length = l.length := by
  intro l
  induction l with
  | nil => rfl
  | cons x xs ih =>
    by_cases hp : p x = true
    · rw [updateFirst, if_pos hp]; rfl
    · rw [updateFirst, if_neg hp]
      simp [ih]

/-- `_store_relationship` never touches the entity table. -/
theorem store_relationship_entities (now : Nat) (s : KGState)
    (rel : ExtractedRelationship) (doc : Nat) :
    (_store_relationship now s rel doc).1.entities = s.entities := by
  unfold _store_relationship
  cases resolveEndpoint s.entities rel.source_name rel.source_type with
  | none => rfl
  | some sid =>
    cases resolveEndpoint s.entities rel.target_name rel.target_type with
    | none => rfl
    | some tid =>
      dsimp only
      cases findRelTriple s.relationships sid tid rel.relationship_type <;> rfl

/-- Folding entity candidates preserves the dedup invariant. -/
theorem entFold_dedup (embed : PyStr → List Rat) (now : Nat) (doc : Nat) :
    ∀ (ents : List ExtractedEntity) (acc : KGState × List Nat),
      DedupInv acc.1.entities →
        DedupInv (ents.foldl (entFold embed now doc) acc).1.entities := by
  intro ents
  induction ents with
  | nil => exact fun acc h => h
  | cons e rest ih =>
    intro acc h
    rw [List.foldl_cons]
    exact ih _ (store_entity_dedup embed now acc.1 e doc h)

/-- Folding relationship candidates leaves the entity table unchanged. -/
theorem relFold_entities (now : Nat) (doc : Nat) :
    ∀ (rels : List ExtractedRelationship) (acc : KGState × List Nat),
      (rels.foldl (relFold now doc) acc).1.entities = acc.1.entities := by
  intro rels
  induction rels with
  | nil => exact fun _ => rfl
  | cons r rest ih =>
    intro acc
    rw [List.foldl_cons, ih]
    exact store_relationship_entities now acc.1 r doc

/-- `store_extraction_results` preserves the dedup invariant. -/
theorem store_results_dedup (embed : PyStr → List Rat) (now : Nat) (s : KGState)
    (doc : Nat) (ents : List ExtractedEntity) (rels : List ExtractedRelationship)
    (h : DedupInv s.entities) :
    DedupInv (store_extraction_results embed now s doc ents rels).1.entities := by
  unfold store_extraction_results
  rw [relFold_entities]
  exact entFold_dedup embed now doc ents (s, []) h

/-- Sequential batches preserve the dedup invariant. -/
theorem runBatch_fold_dedup (embed : PyStr → List Rat) (now : Nat) :
    ∀ (batches : List (Nat × List ExtractedEntity × List ExtractedRelationship))
      (s : KGState), DedupInv s.entities →
        DedupInv (batches.foldl (runBatch embed now) s).entities := by
  intro batches
  induction batches with
  | nil => exact fun s h => h
  | cons b rest ih =>
    intro s h
    rw [List.foldl_cons]
    exact ih _ (store_results_dedup embed now s b.1 b.2.1 b.2.2 h)

/-- C1 (confirmed): after any sequence of `store_extraction_results`
calls against a store satisfying the dedup invariant, no two non-deleted
entities share (canonical_name, entity_type); and `_store_entity` leaves
the row count unchanged when the typed lookup over non-deleted entities
hits, inserting exactly one row only when it misses. -/
theorem kg_dedup_invariant (embed : PyStr → List Rat) (now : Nat)
    (batches : List (Nat × List ExtractedEntity × List ExtractedRelationship))
    (s : KGState) (h : DedupInv s.entities) :
    DedupInv (batches.foldl (runBatch embed now) s).entities ∧
    (∀ (st : KGState) (ent : ExtractedEntity) (doc : Nat),
      ((_find_entity_by_name st.entities (normalize_name ent.name)
          ent.entity_type).isSome = true →
        (_store_entity embed now st ent doc).1.entities.length = st.entities.length) ∧
      (_find_entity_by_name st.entities (normalize_name ent.name) ent.entity_type = none →
        (_store_entity embed now st ent doc).1.entities.length =
          st.entities.length + 1)) := by
  refine ⟨runBatch_fold_dedup embed now batches s h, ?_⟩
  intro st ent doc
  constructor
  · intro hsome
    rcases Option.isSome_iff_exists.mp hsome with ⟨eid, heid⟩
    rw [store_entity_entities_update embed now st ent doc eid heid]
    exact updateFirst_length _ _ _
  · intro hnone
    rw [store_entity_entities_insert embed now st ent doc hnone]
    simp

/-- C1 witness: the invariant theorem applied to a concrete run — the
empty store, one batch storing the SES entity twice (second one under a
punctuation variant of the name), then storing the serves relationship. -/
theorem kg_dedup_invariant_witness :
    DedupInv emptyKGState.entities ∧
    (DedupInv ([(7, [entSES, entSESlow], [relServes])].foldl
        (runBatch zeroEmbed 0) emptyKGState).entities ∧
      (∀ (st : KGState) (ent : ExtractedEntity) (doc : Nat),
        ((_find_entity_by_name st.entities (normalize_name ent.name)
            ent.entity_type).isSome = true →
          (_store_entity zeroEmbed 0 st ent doc).1.entities.length =
            st.entities.length) ∧
        (_find_entity_by_name st.entities (normalize_name ent.name) ent.entity_type =
            none →
          (_store_entity zeroEmbed 0 st ent doc).1.entities.length =
            st.entities.length + 1))) :=
  ⟨by simp [DedupInv, emptyKGState],
   kg_dedup_invariant zeroEmbed 0 [(7, [entSES, entSESlow], [relServes])] emptyKGState
     (by simp [DedupInv, emptyKGState])⟩

-- ── Merge lemmas (C8, C9, C4) ────────────────────────────────────────────────

theorem pyOrZero_eq (q : Rat) : pyOrZero q = q := by
  by_cases h : q = 0 <;> simp [pyOrZero, h]

/-- `find?` after `updateFirst` with a predicate-preserving update finds
the updated first match. -/
theorem find?_updateFirst {α : Type} (p : α → Bool) (f : α → α)
    (hp : ∀ a, p (f a) = p a) :
    ∀ l : List α, (updateFirst p f l).find? p = (l.find? p).map f := by
  intro l
  induction l with
  | nil => rfl
  | cons x xs ih =>
    by_cases hx : p x = true
    · rw [updateFirst, if_pos hx, List.find?_cons_of_pos _ (by rw [hp]; exact hx),
        List.find?_cons_of_pos _ hx]
      rfl
    · rw [updateFirst, if_neg hx, List.find?_cons_of_neg _ hx,
        List.find?_cons_of_neg _ (by simpa using hx)]
      exact ih

/-- Pointwise relation between a list and its `updateFirst` image. -/
theorem forall2_updateFirst {α : Type} {R : α → α → Prop} (p : α → Bool) (f : α → α)
    (hf : ∀ a, R a (f a)) (hr : ∀ a, R a a) :
    ∀ l : List α, List.Forall₂ R l (updateFirst p f l) := by
  intro l
  induction l with
  | nil => exact List.Forall₂.nil
  | cons x xs ih =>
    by_cases hx : p x = true
    · rw [updateFirst, if_pos hx]
      exact List.Forall₂.cons (hf x) (List.forall₂_same.mpr (fun a _ => hr a))
    · rw [updateFirst, if_neg hx]
      exact List.Forall₂.cons (hr x) ih

/-- The update path of `_store_relationship`, as equations on the
resulting store. -/
theorem store_relationship_update_eq (now : Nat) (s : KGState)
    (rel : ExtractedRelationship) (doc sid tid : Nat) (r : KGRelationship)
    (hs : resolveEndpoint s.entities rel.source_name rel.source_type = some sid)
    (ht : resolveEndpoint s.entities rel.target_name rel.target_type = some tid)
    (hr : findRelTriple s.relationships sid tid rel.relationship_type = some r) :
    (_store_relationship now s rel doc).1.relationships =
      updateFirst (fun x =>
          x.source_entity_id == sid && x.target_entity_id == tid &&
            x.relationship_type == rel.relationship_type)
        (mergeRelationship now rel) s.relationships ∧
    (_store_relationship now s rel doc).1.evidence =
      s.evidence ++ [{ id := s.nextEvidenceId, entity_id := none,
                       relationship_id := some r.id, document_id := doc,
                       evidence_text := rel.evidence_text,
                       extraction_confidence := rel.confidence }] ∧
    (_store_relationship now s rel doc).2 = some r.id := by
  refine ⟨?_, ?_, ?_⟩ <;> simp only [_store_relationship, hs, ht, hr, _store_evidence]

/-- The insert path of `_store_relationship`, as equations on the
resulting store. -/
theorem store_relationship_insert_eq (now : Nat) (s : KGState)
    (rel : ExtractedRelationship) (doc sid tid : Nat)
    (hs : resolveEndpoint s.entities rel.source_name rel.source_type = some sid)
    (ht : resolveEndpoint s.entities rel.target_name rel.target_type = some tid)
    (hr : findRelTriple s.relationships sid tid rel.relationship_type = none) :
    (_store_relationship now s rel doc).1.relationships =
      s.relationships ++ [newRelationshipRow now s sid tid rel] ∧
    (_store_relationship now s rel doc).1.evidence =
      s.evidence ++ [{ id := s.nextEvidenceId, entity_id := none,
                       relationship_id := some s.nextRelationshipId, document_id := doc,
                       evidence_text := rel.evidence_text,
                       extraction_confidence := rel.confidence }] ∧
    (_store_relationship now s rel doc).2 = some s.nextRelationshipId := by
  refine ⟨?_, ?_, ?_⟩ <;>
    simp only [_store_relationship, hs, ht, hr, _store_evidence, newRelationshipRow]

/-- C8 (confirmed): storing a duplicate against an existing entity or
relationship sets the stored confidence to the maximum of the previous
stored score and the candidate confidence, so a lower-confidence
duplicate never lowers the stored score. -/
theorem confidence_merge_monotone :
    (∀ (embed : PyStr → List Rat) (now : Nat) (s : KGState) (ent : ExtractedEntity)
        (doc eid : Nat) (e : KGEntity),
      _find_entity_by_name s.entities (normalize_name ent.name) ent.entity_type =
        some eid →
      findById s.entities eid = some e →
      findById (_store_entity embed now s ent doc).1.entities eid =
          some (mergeEntity now ent e) ∧
        (mergeEntity now ent e).confidence_score = max e.confidence_score ent.confidence ∧
        e.confidence_score ≤ (mergeEntity now ent e).confidence_score) ∧
    (∀ (now : Nat) (s : KGState) (rel : ExtractedRelationship) (doc sid tid : Nat)
        (r : KGRelationship),
      resolveEndpoint s.entities rel.source_name rel.source_type = some sid →
      resolveEndpoint s.entities rel.target_name rel.target_type = some tid →
      findRelTriple s.relationships sid tid rel.relationship_type = some r →
      findRelTriple (_store_relationship now s rel doc).1.relationships sid tid
          rel.relationship_type = some (mergeRelationship now rel r) ∧
        (mergeRelationship now rel r).confidence_score =
          max r.confidence_score rel.confidence ∧
        r.confidence_score ≤ (mergeRelationship now rel r).confidence_score) := by
  constructor
  · intro embed now s ent doc eid e hfind he
    refine ⟨?_, ?_, ?_⟩
    · rw [store_entity_entities_update embed now s ent doc eid hfind]
      unfold findById at he ⊢
      rw [find?_updateFirst (fun e => e.id == eid) (mergeEntity now ent) (fun a => rfl), he]
      rfl
    · show max (pyOrZero e.confidence_score) ent.confidence = _
      rw [pyOrZero_eq]
    · show e.confidence_score ≤ max (pyOrZero e.confidence_score) ent.confidence
      rw [pyOrZero_eq]
      exact le_max_left _ _
  · intro now s rel doc sid tid r hs ht hr
    refine ⟨?_, ?_, ?_⟩
    · rw [(store_relationship_update_eq now s rel doc sid tid r hs ht hr).1]
      unfold findRelTriple at hr ⊢
      rw [find?_updateFirst (fun x =>
          x.source_entity_id == sid && x.target_entity_id == tid &&
            x.relationship_type == rel.relationship_type)
        (mergeRelationship now rel) (fun a => rfl), hr]
      rfl
    · show max (pyOrZero r.confidence_score) rel.confidence = _
      rw [pyOrZero_eq]
    · show r.confidence_score ≤ max (pyOrZero r.confidence_score) rel.confidence
      rw [pyOrZero_eq]
      exact le_max_left _ _

/-- C8 witness: the merge theorem applied to a concrete duplicate store
against the SES row (confidence 9/10, candidate 1/10) and to a concrete
duplicate relationship (stored 2/5, candidate 9/10). -/
theorem confidence_merge_monotone_witness :
    (_find_entity_by_name stateWithSES.entities (normalize_name entSESlow.name)
        entSESlow.entity_type = some 1 ∧
      findById stateWithSES.entities 1 = some rowSES ∧
      (findById (_store_entity zeroEmbed 3 stateWithSES entSESlow 7).1.entities 1 =
          some (mergeEntity 3 entSESlow rowSES) ∧
        (mergeEntity 3 entSESlow rowSES).confidence_score =
          max rowSES.confidence_score entSESlow.confidence ∧
        rowSES.confidence_score ≤ (mergeEntity 3 entSESlow rowSES).confidence_score)) ∧
    (resolveEndpoint stateDeletedRel.entities relServes.source_name
        relServes.source_type = some 1 ∧
      resolveEndpoint stateDeletedRel.entities relServes.target_name
        relServes.target_type = some 2 ∧
      findRelTriple stateDeletedRel.relationships 1 2 relServes.relationship_type =
        some rowServesDeleted ∧
      (findRelTriple (_store_relationship 3 stateDeletedRel relServes 7).1.relationships
          1 2 relServes.relationship_type =
          some (mergeRelationship 3 relServes rowServesDeleted) ∧
        (mergeRelationship 3 relServes rowServesDeleted).confidence_score =
          max rowServesDeleted.confidence_score relServes.confidence ∧
        rowServesDeleted.confidence_score ≤
          (mergeRelationship 3 relServes rowServesDeleted).confidence_score)) :=
  ⟨⟨rfl, rfl,
    confidence_merge_monotone.1 zeroEmbed 3 stateWithSES entSESlow 7 1 rowSES rfl rfl⟩,
   ⟨rfl, rfl, rfl,
    confidence_merge_monotone.2 3 stateDeletedRel relServes 7 1 2 rowServesDeleted
      rfl rfl rfl⟩⟩

/-- C9 (confirmed): frame property of the entity update path — merging a
duplicate changes at most `confidence_score`, `attributes`,
`location_text` and `updated_at` of the one matched row, appends exactly
one Evidence row, and makes no embedding call; `id`, `name`,
`canonical_name`, `entity_type`, `entity_subtype`, `extraction_method`,
`embedding`, `created_at` and `is_deleted` of every row are unchanged,
as are the relationship table and the embedding-call log. -/
theorem entity_merge_frame (embed : PyStr → List Rat) (now : Nat) (s : KGState)
    (ent : ExtractedEntity) (doc eid : Nat)
    (hfind : _find_entity_by_name s.entities (normalize_name ent.name)
      ent.entity_type = some eid) :
    (_store_entity embed now s ent doc).1.embedCalls = s.embedCalls ∧
    (_store_entity embed now s ent doc).1.relationships = s.relationships ∧
    (_store_entity embed now s ent doc).1.evidence =
      s.evidence ++ [{ id := s.nextEvidenceId, entity_id := some eid,
                       relationship_id := none, document_id := doc,
                       evidence_text := ent.evidence_text,
                       extraction_confidence := ent.confidence }] ∧
    List.Forall₂ (fun e e' =>
        e'.id = e.id ∧ e'.name = e.name ∧ e'.canonical_name = e.canonical_name ∧
        e'.entity_type = e.entity_type ∧ e'.entity_subtype = e.entity_subtype ∧
        e'.extraction_method = e.extraction_method ∧ e'.embedding = e.embedding ∧
        e'.created_at = e.created_at ∧ e'.is_deleted = e.is_deleted)
      s.entities (_store_entity embed now s ent doc).1.entities := by
  refine ⟨?_, ?_, ?_, ?_⟩
  · simp only [_store_entity, hfind, _store_evidence]
  · simp only [_store_entity, hfind, _store_evidence]
  · simp only [_store_entity, hfind, _store_evidence]
  · rw [store_entity_entities_update embed now s ent doc eid hfind]
    exact forall2_updateFirst _ _
      (fun a => ⟨rfl, rfl, rfl, rfl, rfl, rfl, rfl, rfl, rfl⟩)
      (fun a => ⟨rfl, rfl, rfl, rfl, rfl, rfl, rfl, rfl, rfl⟩) s.entities

/-- C9 witness: the frame theorem at a concrete duplicate store against
the one-row SES store. -/
theorem entity_merge_frame_witness :
    (_find_entity_by_name stateWithSES.entities (normalize_name entSESlow.name)
        entSESlow.entity_type = some 1) ∧
    ((_store_entity zeroEmbed 3 stateWithSES entSESlow 7).1.embedCalls =
        stateWithSES.embedCalls ∧
      (_store_entity zeroEmbed 3 stateWithSES entSESlow 7).1.relationships =
        stateWithSES.relationships ∧
      (_store_entity zeroEmbed 3 stateWithSES entSESlow 7).1.evidence =
        stateWithSES.evidence ++
          [{ id := stateWithSES.nextEvidenceId, entity_id := some 1,
             relationship_id := none, document_id := 7,
             evidence_text := entSESlow.evidence_text,
             extraction_confidence := entSESlow.confidence }] ∧
      List.Forall₂ (fun e e' =>
          e'.id = e.id ∧ e'.name = e.name ∧ e'.canonical_name = e.canonical_name ∧
          e'.entity_type = e.entity_type ∧ e'.entity_subtype = e.entity_subtype ∧
          e'.extraction_method = e.extraction_method ∧ e'.embedding = e.embedding ∧
          e'.created_at = e.created_at ∧ e'.is_deleted = e.is_deleted)
        stateWithSES.entities (_store_entity zeroEmbed 3 stateWithSES entSESlow 7).1.entities) :=
  ⟨rfl, entity_merge_frame zeroEmbed 3 stateWithSES entSESlow 7 1 rfl⟩

/-- C4 (corrected, counterexample): the relationship lookup of
`_store_relationship` does NOT filter out soft-deleted rows.  In a store
whose only (1, 2, serves) relationship is soft-deleted — so no
non-deleted relationship with the triple exists and the claim demands a
new insert — the code merges into the deleted row instead: the table
length is unchanged, the returned id is the deleted row's id 5, and
every relationship row is still soft-deleted afterwards. -/
theorem store_relationship_deleted_lookup_counterexample :
    stateDeletedRel.relationships.all (fun r => r.is_deleted) = true ∧
    (_store_relationship 3 stateDeletedRel relServes 7).1.relationships.length =
      stateDeletedRel.relationships.length ∧
    (_store_relationship 3 stateDeletedRel relServes 7).2 = some 5 ∧
    (_store_relationship 3 stateDeletedRel relServes 7).1.relationships.all
      (fun r => r.is_deleted) = true :=
  ⟨rfl, rfl, rfl, rfl⟩

/-- C4 (corrected, amended claim): for a relationship candidate whose
endpoints both resolve, a new row is inserted exactly when no existing
relationship — deleted or not — carries the (source, target, type)
triple; when any such row exists (a soft-deleted one included) it is
merged (max confidence, attribute merge) and an Evidence row linked to
it is appended. -/
theorem store_relationship_resolution (now : Nat) (s : KGState)
    (rel : ExtractedRelationship) (doc sid tid : Nat)
    (hs : resolveEndpoint s.entities rel.source_name rel.source_type = some sid)
    (ht : resolveEndpoint s.entities rel.target_name rel.target_type = some tid) :
    (findRelTriple s.relationships sid tid rel.relationship_type = none →
      (_store_relationship now s rel doc).1.relationships =
        s.relationships ++ [newRelationshipRow now s sid tid rel] ∧
      (_store_relationship now s rel doc).1.evidence =
        s.evidence ++ [{ id := s.nextEvidenceId, entity_id := none,
                         relationship_id := some s.nextRelationshipId,
                         document_id := doc, evidence_text := rel.evidence_text,
                         extraction_confidence := rel.confidence }] ∧
      (_store_relationship now s rel doc).2 = some s.nextRelationshipId) ∧
    (∀ r : KGRelationship,
      findRelTriple s.relationships sid tid rel.relationship_type = some r →
      (_store_relationship now s rel doc).1.relationships.length =
        s.relationships.length ∧
      findRelTriple (_store_relationship now s rel doc).1.relationships sid tid
        rel.relationship_type = some (mergeRelationship now rel r) ∧
      (_store_relationship now s rel doc).1.evidence =
        s.evidence ++ [{ id := s.nextEvidenceId, entity_id := none,
                         relationship_id := some r.id, document_id := doc,
                         evidence_text := rel.evidence_text,
                         extraction_confidence := rel.confidence }] ∧
      (_store_relationship now s rel doc).2 = some r.id) := by
  constructor
  · intro hnone
    exact store_relationship_insert_eq now s rel doc sid tid hs ht hnone
  · intro r hr
    have hupd := store_relationship_update_eq now s rel doc sid tid r hs ht hr
    refine ⟨?_, ?_, hupd.2.1, hupd.2.2⟩
    · rw [hupd.1]
      exact updateFirst_length _ _ _
    · rw [hupd.1]
      unfold findRelTriple at hr ⊢
      rw [find?_updateFirst (fun x =>
          x.source_entity_id == sid && x.target_entity_id == tid &&
            x.relationship_type == rel.relationship_type)
        (mergeRelationship now rel) (fun a => rfl), hr]
      rfl

/-- C4 witness: the amended resolution theorem at the concrete
soft-deleted store (merge branch) and at the empty-relationship store
(insert branch). -/
theorem store_relationship_resolution_witness :
    (resolveEndpoint stateDeletedRel.entities relServes.source_name
        relServes.source_type = some 1 ∧
      resolveEndpoint stateDeletedRel.entities relServes.target_name
        relServes.target_type = some 2 ∧
      findRelTriple stateDeletedRel.relationships 1 2 relServes.relationship_type =
        some rowServesDeleted ∧
      ((_store_relationship 3 stateDeletedRel relServes 7).1.relationships.length =
          stateDeletedRel.relationships.length ∧
        findRelTriple (_store_relationship 3 stateDeletedRel relServes 7).1.relationships
          1 2 relServes.relationship_type =
          some (mergeRelationship 3 relServes rowServesDeleted) ∧
        (_store_relationship 3 stateDeletedRel relServes 7).1.evidence =
          stateDeletedRel.evidence ++
            [{ id := stateDeletedRel.nextEvidenceId, entity_id := none,
               relationship_id := some rowServesDeleted.id, document_id := 7,
               evidence_text := relServes.evidence_text,
               extraction_confidence := relServes.confidence }] ∧
        (_store_relationship 3 stateDeletedRel relServes 7).2 =
          some rowServesDeleted.id)) :=
  ⟨rfl, rfl, rfl,
   (store_relationship_resolution 3 stateDeletedRel relServes 7 1 2 rfl rfl).2
     rowServesDeleted rfl⟩

-- ── Parsing lemmas (C3) ──────────────────────────────────────────────────────

theorem parse_entity_item_conf_default (kvs : AttrMap) (e : ExtractedEntity)
    (h : parse_entity_item (JVal.jobj kvs) = ItemOutcome.ok e)
    (hnone : pyLookup kvs (pyOfString ("confidence")) = none) :
    e.confidence = 1/2 := by
  have hg : jGet kvs (pyOfString ("confidence")) (JVal.jnum (1/2)) = JVal.jnum (1/2) := by
    rw [jGet, hnone]
  unfold parse_entity_item at h
  dsimp only at h
  rw [hg] at h
  split at h
  · cases h
  · rename_i name0 hname
    split at h
    · cases h
    · split at h
      · cases h
      · split at h
        · cases h
        · rename_i conf hconf
          cases h
          have h2 : (1/2 : Rat) = conf := by
            simpa [pyFloat] using hconf
          simpa using h2.symm

theorem parse_entity_item_nonnumeric_skip (kvs : AttrMap)
    (hnull : pyLookup kvs (pyOfString ("confidence")) = some JVal.jnull) :
    ∀ e, parse_entity_item (JVal.jobj kvs) ≠ ItemOutcome.ok e := by
  intro e h
  have hg : jGet kvs (pyOfString ("confidence")) (JVal.jnum (1/2)) = JVal.jnull := by
    rw [jGet, hnull]
  unfold parse_entity_item at h
  dsimp only at h
  rw [hg] at h
  split at h
  · cases h
  · split at h
    · cases h
    · split at h
      · cases h
      · split at h
        · cases h
        · rename_i conf hconf
          simp [pyFloat] at hconf

theorem parse_entity_item_conf_kept (kvs : AttrMap) (e : ExtractedEntity) (q : Rat)
    (h : parse_entity_item (JVal.jobj kvs) = ItemOutcome.ok e)
    (hq : pyLookup kvs (pyOfString ("confidence")) = some (JVal.jnum q)) :
    e.confidence = q := by
  have hg : jGet kvs (pyOfString ("confidence")) (JVal.jnum (1/2)) = JVal.jnum q := by
    rw [jGet, hq]
  unfold parse_entity_item at h
  dsimp only at h
  rw [hg] at h
  split at h
  · cases h
  · split at h
    · cases h
    · split at h
      · cases h
      · split at h
        · cases h
        · rename_i conf hconf
          cases h
          have h2 : q = conf := by
            simpa [pyFloat] using hconf
          simpa using h2.symm

theorem parse_entity_items_skip_local (item : JVal)
    (hskip : parse_entity_item item = ItemOutcome.skip) :
    ∀ (pre post : List JVal),
      parse_entity_items (pre ++ item :: post) = parse_entity_items (pre ++ post) := by
  intro pre
  induction pre with
  | nil =>
    intro post
    show parse_entity_items (item :: post) = parse_entity_items post
    simp only [parse_entity_items, hskip]
  | cons p pre' ih =>
    intro post
    simp only [List.cons_append, parse_entity_items, List.append_eq, ih]

theorem parse_relationship_item_conf_default (kvs : AttrMap) (r : ExtractedRelationship)
    (h : parse_relationship_item (JVal.jobj kvs) = ItemOutcome.ok r)
    (hnone : pyLookup kvs (pyOfString ("confidence")) = none) :
    r.confidence = 1/2 := by
  have hg : jGet kvs (pyOfString ("confidence")) (JVal.jnum (1/2)) = JVal.jnum (1/2) := by
    rw [jGet, hnone]
  unfold parse_relationship_item at h
  dsimp only at h
  rw [hg] at h
  split at h
  · cases h
  · split at h
    · cases h
    · split at h
      · cases h
      · split at h
        · cases h
        · split at h
          · cases h
          · rename_i conf hconf
            cases h
            have h2 : (1/2 : Rat) = conf := by
              simpa [pyFloat] using hconf
            simpa using h2.symm

theorem parse_relationship_item_nonnumeric_skip (kvs : AttrMap)
    (hnull : pyLookup kvs (pyOfString ("confidence")) = some JVal.jnull) :
    ∀ r, parse_relationship_item (JVal.jobj kvs) ≠ ItemOutcome.ok r := by
  intro r h
  have hg : jGet kvs (pyOfString ("confidence")) (JVal.jnum (1/2)) = JVal.jnull := by
    rw [jGet, hnull]
  unfold parse_relationship_item at h
  dsimp only at h
  rw [hg] at h
  split at h
  · cases h
  · split at h
    · cases h
    · split at h
      · cases h
      · split at h
        · cases h
        · split at h
          · cases h
          · rename_i conf hconf
            simp [pyFloat] at hconf

theorem parse_relationship_item_conf_kept (kvs : AttrMap) (r : ExtractedRelationship)
    (q : Rat) (h : parse_relationship_item (JVal.jobj kvs) = ItemOutcome.ok r)
    (hq : pyLookup kvs (pyOfString ("confidence")) = some (JVal.jnum q)) :
    r.confidence = q := by
  have hg : jGet kvs (pyOfString ("confidence")) (JVal.jnum (1/2)) = JVal.jnum q := by
    rw [jGet, hq]
  unfold parse_relationship_item at h
  dsimp only at h
  rw [hg] at h
  split at h
  · cases h
  · split at h
    · cases h
    · split at h
      · cases h
      · split at h
        · cases h
        · split at h
          · cases h
          · rename_i conf hconf
            cases h
            have h2 : q = conf := by
              simpa [pyFloat] using hconf
            simpa using h2.symm

/-- C3 (corrected, counterexample): an entity item with a non-numeric
confidence (`null`) is dropped entirely — the parse returns no
candidate, not a candidate with the 0.5 default; and an out-of-range
confidence of 1.5 is kept as 1.5, not clamped to 0.5. -/
theorem parse_confidence_counterexample :
    _parse_entity_response (some (JVal.jobj
      [(pyOfString ("entities"), JVal.jarr [itemNullConf])])) = some [] ∧
    (_parse_entity_response (some (JVal.jobj
        [(pyOfString ("entities"), JVal.jarr [itemHighConf])]))).map
      (fun l => l.map (fun e => e.confidence)) = some [3/2] :=
  ⟨rfl, rfl⟩

/-- C3 (corrected, amended claim): only a MISSING confidence field is
defaulted to 0.5; an item whose confidence is non-numeric (`null`) is
skipped — it yields no candidate, while the remaining items of the batch
are unaffected; an out-of-range numeric confidence is stored unchanged,
not clamped.  The same holds for relationship items. -/
theorem parse_confidence_handling :
    (∀ (kvs : AttrMap) (e : ExtractedEntity),
      parse_entity_item (JVal.jobj kvs) = ItemOutcome.ok e →
      pyLookup kvs (pyOfString ("confidence")) = none → e.confidence = 1/2) ∧
    (∀ kvs : AttrMap, pyLookup kvs (pyOfString ("confidence")) = some JVal.jnull →
      ∀ e, parse_entity_item (JVal.jobj kvs) ≠ ItemOutcome.ok e) ∧
    (∀ item : JVal, parse_entity_item item = ItemOutcome.skip →
      ∀ pre post : List JVal,
        parse_entity_items (pre ++ item :: post) = parse_entity_items (pre ++ post)) ∧
    (∀ (kvs : AttrMap) (e : ExtractedEntity) (q : Rat),
      parse_entity_item (JVal.jobj kvs) = ItemOutcome.ok e →
      pyLookup kvs (pyOfString ("confidence")) = some (JVal.jnum q) →
        e.confidence = q) ∧
    (∀ (kvs : AttrMap) (r : ExtractedRelationship),
      parse_relationship_item (JVal.jobj kvs) = ItemOutcome.ok r →
      pyLookup kvs (pyOfString ("confidence")) = none → r.confidence = 1/2) ∧
    (∀ kvs : AttrMap, pyLookup kvs (pyOfString ("confidence")) = some JVal.jnull →
      ∀ r, parse_relationship_item (JVal.jobj kvs) ≠ ItemOutcome.ok r) ∧
    (∀ (kvs : AttrMap) (r : ExtractedRelationship) (q : Rat),
      parse_relationship_item (JVal.jobj kvs) = ItemOutcome.ok r →
      pyLookup kvs (pyOfString ("confidence")) = some (JVal.jnum q) →
        r.confidence = q) :=
  ⟨parse_entity_item_conf_default, parse_entity_item_nonnumeric_skip,
   parse_entity_items_skip_local, parse_entity_item_conf_kept,
   parse_relationship_item_conf_default, parse_relationship_item_nonnumeric_skip,
   parse_relationship_item_conf_kept⟩

/-- C3 witness: the amended parsing theorem instantiated at the concrete
fixture items (missing confidence, `null` confidence, out-of-range
confidence, and their relationship counterparts). -/
theorem parse_confidence_handling_witness :
    (parse_entity_item (JVal.jobj kvsGood) = ItemOutcome.ok entGoodParsed ∧
      pyLookup kvsGood (pyOfString ("confidence")) = none ∧
      entGoodParsed.confidence = 1/2) ∧
    (pyLookup kvsNullConf (pyOfString ("confidence")) = some JVal.jnull ∧
      parse_entity_item (JVal.jobj kvsNullConf) ≠ ItemOutcome.ok entGoodParsed) ∧
    (parse_entity_item itemNullConf = ItemOutcome.skip ∧
      parse_entity_items ([itemGood] ++ itemNullConf :: [itemHighConf]) =
        parse_entity_items ([itemGood] ++ [itemHighConf])) ∧
    (parse_entity_item (JVal.jobj kvsHighConf) = ItemOutcome.ok entHighParsed ∧
      pyLookup kvsHighConf (pyOfString ("confidence")) = some (JVal.jnum (3/2)) ∧
      entHighParsed.confidence = 3/2) ∧
    (parse_relationship_item (JVal.jobj kvsRelGood) = ItemOutcome.ok relGoodParsed ∧
      pyLookup kvsRelGood (pyOfString ("confidence")) = none ∧
      relGoodParsed.confidence = 1/2) ∧
    (pyLookup kvsRelNull (pyOfString ("confidence")) = some JVal.jnull ∧
      parse_relationship_item (JVal.jobj kvsRelNull) ≠ ItemOutcome.ok relGoodParsed) :=
  ⟨⟨rfl, rfl, parse_confidence_handling.1 kvsGood entGoodParsed rfl rfl⟩,
   ⟨rfl, parse_confidence_handling.2.1 kvsNullConf rfl entGoodParsed⟩,
   ⟨rfl, parse_confidence_handling.2.2.1 itemNullConf rfl [itemGood] [itemHighConf]⟩,
   ⟨rfl, rfl, parse_confidence_handling.2.2.2.1 kvsHighConf entHighParsed (3/2) rfl rfl⟩,
   ⟨rfl, rfl, parse_confidence_handling.2.2.2.2.1 kvsRelGood relGoodParsed rfl rfl⟩,
   ⟨rfl, parse_confidence_handling.2.2.2.2.2.1 kvsRelNull rfl relGoodParsed⟩⟩

-- ── Chunking lemmas (C5) ─────────────────────────────────────────────────────

theorem splitParasAux_cons (c : Char) (l cur : PyStr)
    (hc : ¬(c = '\x0a' ∧ l.head? = some '\x0a')) :
    splitParasAux (c :: l) cur = splitParasAux l (c :: cur) := by
  rw [splitParasAux.eq_def]
  split
  · rename_i rest heq
    exfalso
    cases heq
    exact hc ⟨rfl, rfl⟩
  · rename_i heq
    cases heq
    rfl
  · rename_i heq
    cases heq

theorem splitParasAux_no_sep (l : PyStr) (h : ∀ c ∈ l, c ≠ '\x0a') :
    ∀ cur, splitParasAux l cur = [cur.reverse ++ l] := by
  induction l with
  | nil => intro cur; simp [splitParasAux]
  | cons a l' ih =>
    intro cur
    rw [splitParasAux_cons a l' cur
      (fun hcontra => h a (List.mem_cons_self a l') hcontra.1)]
    rw [ih (fun c hc => h c (List.mem_cons_of_mem _ hc)) (a :: cur)]
    simp

theorem splitParasAux_through (A : PyStr) (hA : ∀ c ∈ A, c ≠ '\x0a') (B : PyStr) :
    ∀ cur, splitParasAux (A ++ '\x0a' :: '\x0a' :: B) cur =
      (cur.reverse ++ A) :: splitParasAux B [] := by
  induction A with
  | nil =>
    intro cur
    simp only [List.nil_append]
    rw [splitParasAux]
    simp
  | cons a A' ih =>
    intro cur
    rw [List.cons_append, splitParasAux_cons a (A' ++ '\x0a' :: '\x0a' :: B) cur
      (fun hcontra => hA a (List.mem_cons_self a A') hcontra.1)]
    rw [ih (fun c hc => hA c (List.mem_cons_of_mem _ hc)) (a :: cur)]
    simp

theorem dropWhile_of_none {p : Char → Bool} :
    ∀ l : PyStr, (∀ c ∈ l, p c = false) → l.dropWhile p = l := by
  intro l h
  cases l with
  | nil => rfl
  | cons a l' =>
    rw [List.dropWhile_cons, h a (List.mem_cons_self a l')]
    simp

theorem pyStrip_no_space (l : PyStr) (h : ∀ c ∈ l, pyIsSpace c = false) :
    pyStrip l = l := by
  unfold pyStrip
  rw [dropWhile_of_none l h,
    dropWhile_of_none l.reverse (fun c hc => h c (List.mem_reverse.mp hc)),
    List.reverse_reverse]

theorem joinParas_len : ∀ cur : List PyStr, cur ≠ [] →
    (joinParas cur).length + 2 = lenAcc cur := by
  intro cur
  induction cur with
  | nil => intro h; exact absurd rfl h
  | cons p rest ih =>
    intro _
    cases rest with
    | nil => simp [joinParas, lenAcc]
    | cons q rest' =>
      have := ih (by simp)
      rw [joinParas]
      simp only [List.length_append, List.length_cons, lenAcc, List.map_cons,
        List.sum_cons] at this ⊢
      omega

theorem lenAcc_append (a b : List PyStr) : lenAcc (a ++ b) = lenAcc a + lenAcc b := by
  simp [lenAcc]

/-- The last element of a nonempty list is a member of it. -/
theorem getLastD_mem {α : Type} :
    ∀ l : List α, l ≠ [] → ∀ d : α, l.getLastD d ∈ l := by
  intro l
  induction l with
  | nil => intro h; exact absurd rfl h
  | cons a rest ih =>
    intro _ d
    cases hr : rest with
    | nil => exact List.mem_singleton.mpr rfl
    | cons b rest2 =>
      rw [List.getLastD_cons]
      exact List.mem_cons_of_mem _ (hr ▸ ih (by rw [hr]; simp) a)

/-- `chunkStep` preserves the chunk-size discipline, the current-chunk
membership and size disciplines, and the `current_len` bookkeeping, for
any paragraph drawn from the input's split. -/
theorem chunkStep_inv (content : PyStr) (max_chars : Nat)
    (acc : List PyStr × List PyStr × Nat) (para0 : PyStr)
    (hpara : para0 ∈ pySplitParas content)
    (hchunks : ∀ c ∈ acc.1, GoodChunk content max_chars c)
    (hcurmem : ∀ p ∈ acc.2.1, StripParaOf content p)
    (hcur : (joinParas acc.2.1).length ≤ max_chars ∨ acc.2.1.length ≤ 2)
    (hlen : lenAcc acc.2.1 = acc.2.2) :
    (∀ c ∈ (chunkStep max_chars acc para0).1, GoodChunk content max_chars c) ∧
    (∀ p ∈ (chunkStep max_chars acc para0).2.1, StripParaOf content p) ∧
    ((joinParas (chunkStep max_chars acc para0).2.1).length ≤ max_chars ∨
      (chunkStep max_chars acc para0).2.1.length ≤ 2) ∧
    lenAcc (chunkStep max_chars acc para0).2.1 = (chunkStep max_chars acc para0).2.2 := by
  unfold chunkStep
  by_cases he : (pyStrip para0).isEmpty = true
  · rw [if_pos he]
    exact ⟨hchunks, hcurmem, hcur, hlen⟩
  · rw [if_neg he]
    dsimp only
    have hparaP : StripParaOf content (pyStrip para0) :=
      ⟨List.mem_map_of_mem pyStrip hpara, Bool.eq_false_iff.mpr he⟩
    by_cases hg : (max_chars < acc.2.2 + ((pyStrip para0).length + 2) &&
        !acc.2.1.isEmpty) = true
    · rw [if_pos hg]
      dsimp only
      have hcne : acc.2.1 ≠ [] := by
        intro hnil
        rw [hnil] at hg
        simp at hg
      refine ⟨?_, ?_, ?_, ?_⟩
      · intro c hc
        rcases List.mem_append.mp hc with h1 | h2
        · exact hchunks c h1
        · have hc2 := List.mem_singleton.mp h2
          subst hc2
          rcases hcur with hlen2 | hle
          · exact Or.inl hlen2
          · exact Or.inr (Or.inl ⟨acc.2.1, rfl, hle, hcne, hcurmem⟩)
      · intro p hp
        rcases List.mem_append.mp hp with h1 | h2
        · have hpl := List.mem_singleton.mp h1
          subst hpl
          exact hcurmem _ (getLastD_mem acc.2.1 hcne [])
        · have hpl := List.mem_singleton.mp h2
          subst hpl
          exact hparaP
      · right
        simp
      · simp [lenAcc]
    · rw [if_neg hg]
      dsimp only
      refine ⟨hchunks, ?_, ?_, ?_⟩
      · intro p hp
        rcases List.mem_append.mp hp with h1 | h2
        · exact hcurmem p h1
        · have hpl := List.mem_singleton.mp h2
          subst hpl
          exact hparaP
      · by_cases hce : acc.2.1.isEmpty = true
        · right
          have hnil : acc.2.1 = [] := by simpa using hce
          simp [hnil]
        · have hce2 : acc.2.1.isEmpty = false := by
            simpa using hce
          have hlt : ¬(max_chars < acc.2.2 + ((pyStrip para0).length + 2)) := by
            intro hlt
            apply hg
            rw [Bool.and_eq_true]
            refine ⟨decide_eq_true hlt, ?_⟩
            rw [hce2]
            rfl
          have hle : acc.2.2 + ((pyStrip para0).length + 2) ≤ max_chars :=
            Nat.le_of_not_lt hlt
          left
          have hne : acc.2.1 ++ [pyStrip para0] ≠ [] := by simp
          have hjl := joinParas_len _ hne
          rw [lenAcc_append, hlen] at hjl
          have hsingle : lenAcc [pyStrip para0] = (pyStrip para0).length + 2 := by
            simp [lenAcc]
          omega
      · rw [lenAcc_append, hlen]
        simp [lenAcc]

/-- The paragraph fold preserves the chunk-size disciplines. -/
theorem chunkFold_inv (content : PyStr) (max_chars : Nat) :
    ∀ (paras : List PyStr) (acc : List PyStr × List PyStr × Nat),
      (∀ p ∈ paras, p ∈ pySplitParas content) →
      (∀ c ∈ acc.1, GoodChunk content max_chars c) →
      (∀ p ∈ acc.2.1, StripParaOf content p) →
      ((joinParas acc.2.1).length ≤ max_chars ∨ acc.2.1.length ≤ 2) →
      lenAcc acc.2.1 = acc.2.2 →
      (∀ c ∈ (paras.foldl (chunkStep max_chars) acc).1, GoodChunk content max_chars c) ∧
      (∀ p ∈ (paras.foldl (chunkStep max_chars) acc).2.1, StripParaOf content p) ∧
      ((joinParas (paras.foldl (chunkStep max_chars) acc).2.1).length ≤ max_chars ∨
        (paras.foldl (chunkStep max_chars) acc).2.1.length ≤ 2) := by
  intro paras
  induction paras with
  | nil => exact fun acc _ h1 h2 h3 _ => ⟨h1, h2, h3⟩
  | cons p rest ih =>
    intro acc hin h1 h2 h3 h4
    rw [List.foldl_cons]
    have hstep := chunkStep_inv content max_chars acc p
      (hin p (List.mem_cons_self p rest)) h1 h2 h3 h4
    exact ih _ (fun q hq => hin q (List.mem_cons_of_mem _ hq))
      hstep.1 hstep.2.1 hstep.2.2.1 hstep.2.2.2

/-- A paragraph that does not strip to blank leaves the current chunk
nonempty. -/
theorem chunkStep_cur_of_nonempty (max_chars : Nat)
    (acc : List PyStr × List PyStr × Nat) (para0 : PyStr)
    (h : ¬((pyStrip para0).isEmpty = true)) :
    ∃ l, (chunkStep max_chars acc para0).2.1 = l ++ [pyStrip para0] := by
  unfold chunkStep
  rw [if_neg h]
  dsimp only
  by_cases hg : (max_chars < acc.2.2 + ((pyStrip para0).length + 2) &&
      !acc.2.1.isEmpty) = true
  · rw [if_pos hg]
    exact ⟨_, rfl⟩
  · rw [if_neg hg]
    exact ⟨_, rfl⟩

/-- If the fold ends with an empty current chunk, it started with one
and every processed paragraph stripped to blank. -/
theorem chunkFold_blank (max_chars : Nat) :
    ∀ (paras : List PyStr) (acc : List PyStr × List PyStr × Nat),
      (paras.foldl (chunkStep max_chars) acc).2.1 = [] →
      acc.2.1 = [] ∧ ∀ p ∈ paras, (pyStrip p).isEmpty = true := by
  intro paras
  induction paras with
  | nil =>
    intro acc h
    exact ⟨h, by intro p hp; cases hp⟩
  | cons q rest ih =>
    intro acc h
    rw [List.foldl_cons] at h
    obtain ⟨hstep, hall⟩ := ih _ h
    by_cases hq : (pyStrip q).isEmpty = true
    · have hacc : chunkStep max_chars acc q = acc := by
        unfold chunkStep
        rw [if_pos hq]
      rw [hacc] at hstep
      refine ⟨hstep, ?_⟩
      intro p hp
      rcases List.mem_cons.mp hp with h1 | h2
      · exact h1 ▸ hq
      · exact hall p h2
    · exfalso
      obtain ⟨l, hl⟩ := chunkStep_cur_of_nonempty max_chars acc q hq
      rw [hl] at hstep
      simp at hstep

/-- C5 (corrected, amended claim): every chunk produced by `_chunk_text`
either has length at most `max_chars`, or is the paragraph-join of at
most two nonempty stripped paragraphs of the input — a single oversized
paragraph kept whole, or the carried-over overlap paragraph together
with the paragraph whose arrival closed the previous chunk (which can
exceed the limit even when both paragraphs are individually within
it) — or every paragraph of the input strips to blank and the input is
returned whole. -/
theorem chunk_size_bound (content : PyStr) (max_chars : Nat) :
    ∀ c ∈ _chunk_text content max_chars, GoodChunk content max_chars c := by
  intro c hc
  unfold _chunk_text at hc
  split at hc
  · rename_i hle
    have hceq := List.mem_singleton.mp hc
    subst hceq
    exact Or.inl hle
  · dsimp only at hc
    have hinv := chunkFold_inv content max_chars (pySplitParas content) ([], [], 0)
      (fun p hp => hp) (by intro x hx; cases hx) (by intro x hx; cases hx)
      (by left; simp [joinParas]) rfl
    split at hc
    · rename_i hcurE
      split at hc
      · have hceq := List.mem_singleton.mp hc
        have hblank := (chunkFold_blank max_chars (pySplitParas content) ([], [], 0)
          (List.isEmpty_iff.mp hcurE)).2
        exact Or.inr (Or.inr ⟨hblank, hceq⟩)
      · exact hinv.1 c hc
    · rename_i hcurNE
      split at hc
      · rename_i habs
        simp at habs
      · rcases List.mem_append.mp hc with h1 | h2
        · exact hinv.1 c h1
        · have hceq := List.mem_singleton.mp h2
          subst hceq
          rcases hinv.2.2 with hl | hp
          · exact Or.inl hl
          · refine Or.inr (Or.inl ⟨_, rfl, hp, ?_, hinv.2.1⟩)
            intro hnil
            apply hcurNE
            rw [hnil]
            rfl

/-- C5 witness: the bound theorem applied to a concrete oversized
single-paragraph input. -/
theorem chunk_size_bound_witness :
    pyOfString ("abcd") ∈ _chunk_text (pyOfString ("abcd")) 2 ∧
    GoodChunk (pyOfString ("abcd")) 2 (pyOfString ("abcd")) :=
  ⟨by decide, chunk_size_bound (pyOfString ("abcd")) 2 (pyOfString ("abcd")) (by decide)⟩

theorem repA_chars : ∀ c ∈ repA, c = 'a' := by
  intro c hc
  exact List.eq_of_mem_replicate hc

theorem repB_chars : ∀ c ∈ repB, c = 'b' := by
  intro c hc
  exact List.eq_of_mem_replicate hc

theorem repA_strip : pyStrip repA = repA :=
  pyStrip_no_space _ (fun c hc => by rw [repA_chars c hc]; decide)

theorem repB_strip : pyStrip repB = repB :=
  pyStrip_no_space _ (fun c hc => by rw [repB_chars c hc]; decide)

theorem repA_len : repA.length = 2900 := by
  unfold repA
  rw [List.length_replicate]

theorem repB_len : repB.length = 2900 := by
  unfold repB
  rw [List.length_replicate]

theorem repA_isEmpty : repA.isEmpty = false := by
  rw [Bool.eq_false_iff]
  intro h
  have hnil := List.isEmpty_iff.mp h
  have hl := congrArg List.length hnil
  rw [repA_len] at hl
  simp at hl

theorem repB_isEmpty : repB.isEmpty = false := by
  rw [Bool.eq_false_iff]
  intro h
  have hnil := List.isEmpty_iff.mp h
  have hl := congrArg List.length hnil
  rw [repB_len] at hl
  simp at hl

theorem bigInput_split : pySplitParas bigInput = [repA, repB] := by
  unfold pySplitParas bigInput
  rw [splitParasAux_through repA (fun c hc => by rw [repA_chars c hc]; decide) repB []]
  rw [splitParasAux_no_sep repB (fun c hc => by rw [repB_chars c hc]; decide) []]
  simp

theorem bigInput_len : bigInput.length = 5802 := by
  unfold bigInput
  rw [List.length_append, repA_len, List.length_cons, List.length_cons, repB_len]

theorem chunkStep_bigInput_1 :
    chunkStep 3000 ([], [], 0) repA = ([], [repA], 2902) := by
  unfold chunkStep
  rw [repA_strip, if_neg (by rw [repA_isEmpty]; exact Bool.false_ne_true)]
  dsimp only
  rw [if_neg (by rw [repA_len]; decide)]
  rw [repA_len]
  rfl

theorem chunkStep_bigInput_2 :
    chunkStep 3000 ([], [repA], 2902) repB = ([repA], [repA, repB], 5804) := by
  unfold chunkStep
  rw [repB_strip, if_neg (by rw [repB_isEmpty]; exact Bool.false_ne_true)]
  dsimp only
  rw [if_pos (by rw [repB_len]; decide)]
  dsimp only
  rw [show ([repA] : List PyStr).getLastD [] = repA from rfl, repA_len, repB_len,
    show joinParas [repA] = repA from rfl]
  rfl

/-- C5 (corrected, counterexample): on a 5802-character document of two
2900-character paragraphs, the second produced chunk is the whole
document — 5802 characters, far above `max_chars = 3000` — even though
it consists of TWO paragraphs, each individually within the limit: the
carried-over overlap paragraph plus the paragraph that closed the first
chunk.  The claim's only allowed exception (a single paragraph longer
than `max_chars` kept whole) does not apply. -/
theorem chunk_overflow_counterexample :
    _chunk_text bigInput 3000 = [repA, bigInput] ∧
    bigInput.length = 5802 ∧ 3000 < bigInput.length ∧
    pySplitParas bigInput = [repA, repB] ∧
    repA.length ≤ 3000 ∧ repB.length ≤ 3000 := by
  refine ⟨?_, bigInput_len, by rw [bigInput_len]; omega, bigInput_split,
    by rw [repA_len]; omega, by rw [repB_len]; omega⟩
  unfold _chunk_text
  rw [if_neg (by rw [bigInput_len]; omega)]
  dsimp only
  rw [bigInput_split, List.foldl_cons, List.foldl_cons, List.foldl_nil,
    chunkStep_bigInput_1, chunkStep_bigInput_2]
  dsimp only
  rw [if_neg (by simp)]
  show [repA] ++ [joinParas [repA, repB]] = [repA, bigInput]
  rw [joinParas]
  rfl

-- ── Search lemmas (C6) ───────────────────────────────────────────────────────

theorem containsSub_self : ∀ q : PyStr, containsSub q q = true := by
  intro q
  cases q with
  | nil => rfl
  | cons c rest => simp [containsSub]

theorem ilike_self (q : PyStr) : ilike q q = true :=
  containsSub_self (pyLower q)

/-- Phase 2 only ever appends to the result list. -/
theorem foldl_addIfNewCapped_extends (limit : Nat) :
    ∀ (l init : List KGEntity),
      ∃ ext, l.foldl (addIfNewCapped limit) init = init ++ ext := by
  intro l
  induction l with
  | nil => exact fun init => ⟨[], by simp⟩
  | cons e rest ih =>
    intro init
    have hstep : addIfNewCapped limit init e = init ++ [e] ∨
        addIfNewCapped limit init e = init := by
      unfold addIfNewCapped
      split
      · exact Or.inl rfl
      · exact Or.inr rfl
    rcases hstep with h1 | h1 <;> rw [List.foldl_cons, h1]
    · obtain ⟨ext, hext⟩ := ih (init ++ [e])
      exact ⟨[e] ++ ext, by rw [hext, List.append_assoc]⟩
    · exact ih init

/-- With duplicate-free ids the phase-1 accumulation is the identity. -/
theorem foldl_addIfNew_nodup :
    ∀ (l acc : List KGEntity), ((acc ++ l).map (fun x => x.id)).Nodup →
      l.foldl addIfNew acc = acc ++ l := by
  intro l
  induction l with
  | nil => intro acc _; simp
  | cons e rest ih =>
    intro acc h
    have hmaps : ((acc ++ e :: rest).map (fun x => x.id)) =
        acc.map (fun x => x.id) ++ e.id :: rest.map (fun x => x.id) := by
      simp
    rw [hmaps] at h
    have hdisj := List.disjoint_of_nodup_append h
    have hnotin : e.id ∉ acc.map (fun x => x.id) := by
      intro hin
      exact hdisj hin (List.mem_cons_self _ _)
    have hcont : (acc.map (fun x => x.id)).contains e.id = false := by
      rw [Bool.eq_false_iff]
      intro hc
      exact hnotin (by simpa using hc)
    have hstep : addIfNew acc e = acc ++ [e] := by
      unfold addIfNew
      rw [if_neg (by rw [hcont]; exact Bool.false_ne_true)]
    have harr : acc ++ e :: rest = (acc ++ [e]) ++ rest := by simp
    have hih := ih (acc ++ [e]) (by
      rw [← harr, hmaps]
      exact h)
    rw [List.foldl_cons, hstep, hih, harr]

theorem insertByConf_perm (e : KGEntity) :
    ∀ l : List KGEntity, (insertByConf e l).Perm (e :: l) := by
  intro l
  induction l with
  | nil => exact List.Perm.refl _
  | cons x xs ih =>
    unfold insertByConf
    split
    · exact List.Perm.refl _
    · exact (ih.cons x).trans (List.Perm.swap e x xs)

theorem sortByConfDesc_perm :
    ∀ l : List KGEntity, (sortByConfDesc l).Perm l := by
  intro l
  induction l with
  | nil => exact List.Perm.refl _
  | cons x xs ih =>
    exact (insertByConf_perm x (sortByConfDesc xs)).trans (ih.cons x)

/-- Duplicate-free ids survive filtering, sorting and truncation. -/
theorem textMatches_ids_nodup (entities : List KGEntity) (query : PyStr)
    (entity_types : Option (List PyStr)) (limit : Nat)
    (h : (entities.map (fun x => x.id)).Nodup) :
    ((textMatches entities query entity_types limit).map (fun x => x.id)).Nodup := by
  unfold textMatches
  have hsub : List.Sublist (entities.filter (searchTextPred query entity_types))
      entities := List.filter_sublist entities
  have h1 : ((entities.filter (searchTextPred query entity_types)).map
      (fun x => x.id)).Nodup :=
    (hsub.map (fun x : KGEntity => x.id)).nodup h
  have h2 : ((sortByConfDesc (entities.filter (searchTextPred query entity_types))).map
      (fun x => x.id)).Nodup := by
    have hperm := sortByConfDesc_perm (entities.filter (searchTextPred query entity_types))
    exact ((hperm.map (fun x => x.id)).nodup_iff).mpr h1
  exact ((List.take_sublist _ _).map (fun x : KGEntity => x.id)).nodup h2

/-- Every phase-1 result stands at the front of the final result list,
for every possible vector ranking. -/
theorem search_entities_front (entities : List KGEntity) (query : PyStr)
    (entity_types : Option (List PyStr)) (limit : Nat) (vecRank : List KGEntity) :
    ∃ ext, search_entities entities query entity_types limit vecRank =
      ((textMatches entities query entity_types limit).foldl addIfNew []) ++ ext := by
  unfold search_entities
  dsimp only
  by_cases h : 0 < limit -
      ((textMatches entities query entity_types limit).foldl addIfNew []).length
  · rw [if_pos h]
    exact foldl_addIfNewCapped_extends limit _ _
  · rw [if_neg h]
    exact ⟨[], by simp⟩

/-- An exact-name match is returned whenever at most `limit` rows pass
the text filter, whatever the vector ranking. -/
theorem search_exact_in_results (entities : List KGEntity) (query : PyStr)
    (entity_types : Option (List PyStr)) (limit : Nat) (vecRank : List KGEntity)
    (e : KGEntity) (hnodup : (entities.map (fun x => x.id)).Nodup)
    (hmem : e ∈ entities) (hbase : baseFilter entity_types e = true)
    (hname : e.name = query)
    (hcount : (entities.filter (searchTextPred query entity_types)).length ≤ limit) :
    e ∈ search_entities entities query entity_types limit vecRank := by
  have hpred : searchTextPred query entity_types e = true := by
    unfold searchTextPred
    rw [hbase, hname, ilike_self]
    rfl
  have hmemf : e ∈ entities.filter (searchTextPred query entity_types) :=
    List.mem_filter.mpr ⟨hmem, hpred⟩
  have hlen : (sortByConfDesc
      (entities.filter (searchTextPred query entity_types))).length ≤ limit := by
    rw [(sortByConfDesc_perm _).length_eq]
    exact hcount
  have hmemt : e ∈ textMatches entities query entity_types limit := by
    unfold textMatches
    rw [List.take_of_length_le hlen]
    exact ((sortByConfDesc_perm _).mem_iff).mpr hmemf
  have hfold : (textMatches entities query entity_types limit).foldl addIfNew [] =
      textMatches entities query entity_types limit := by
    have := foldl_addIfNew_nodup (textMatches entities query entity_types limit) []
      (by simpa using textMatches_ids_nodup entities query entity_types limit hnodup)
    simpa using this
  obtain ⟨ext, hext⟩ :=
    search_entities_front entities query entity_types limit vecRank
  rw [hext, hfold]
  exact List.mem_append.mpr (Or.inl hmemt)

/-- C6 (corrected, counterexample): with limit 20, twenty
higher-confidence substring matches crowd the exact-name match "ses"
out of phase 1, so it is absent from the result set — the limit, not
the vector phase, displaces it. -/
theorem search_exact_match_dropped_counterexample :
    crowdedEntities.any (fun e =>
      e.name == pyOfString ("ses") && e.is_deleted == false) = true ∧
    (search_entities crowdedEntities (pyOfString ("ses")) none 20
      crowdedEntities).length = 20 ∧
    (search_entities crowdedEntities (pyOfString ("ses")) none 20
      crowdedEntities).all (fun e => !(e.name == pyOfString ("ses"))) = true :=
  ⟨by decide, by decide, by decide⟩

/-- C6 (corrected, amended claim): every phase-1 text match appears in
the `search_entities` results, in phase-1 order, before any phase-2
vector result, and is never displaced by phase 2; an entity whose name
exactly matches the query appears in the result set — whatever the
vector ranking — provided at most `limit` non-deleted rows match the
text filter (otherwise the confidence-ranked `LIMIT` of phase 1 itself,
not the vector phase, may cut it). -/
theorem search_phase1_precedence :
    (∀ (entities : List KGEntity) (query : PyStr)
        (entity_types : Option (List PyStr)) (limit : Nat) (vecRank : List KGEntity),
      ∃ ext, search_entities entities query entity_types limit vecRank =
        ((textMatches entities query entity_types limit).foldl addIfNew []) ++ ext) ∧
    (∀ (entities : List KGEntity) (query : PyStr)
        (entity_types : Option (List PyStr)) (limit : Nat) (vecRank : List KGEntity)
        (e : KGEntity),
      (entities.map (fun x => x.id)).Nodup → e ∈ entities →
      baseFilter entity_types e = true → e.name = query →
      (entities.filter (searchTextPred query entity_types)).length ≤ limit →
      e ∈ search_entities entities query entity_types limit vecRank) :=
  ⟨search_entities_front, search_exact_in_results⟩

/-- C6 witness: the precedence theorem at a concrete one-row store. -/
theorem search_phase1_precedence_witness :
    (∃ ext, search_entities [rowSES] (pyOfString ("SES")) none 20 [] =
      ((textMatches [rowSES] (pyOfString ("SES")) none 20).foldl addIfNew []) ++ ext) ∧
    (([rowSES].map (fun x => x.id)).Nodup ∧ rowSES ∈ [rowSES] ∧
      baseFilter none rowSES = true ∧ rowSES.name = pyOfString ("SES") ∧
      ([rowSES].filter (searchTextPred (pyOfString ("SES")) none)).length ≤ 20 ∧
      rowSES ∈ search_entities [rowSES] (pyOfString ("SES")) none 20 []) :=
  ⟨search_phase1_precedence.1 [rowSES] (pyOfString ("SES")) none 20 [],
   ⟨by simp, List.mem_singleton.mpr rfl, rfl, rfl, by decide,
    search_phase1_precedence.2 [rowSES] (pyOfString ("SES")) none 20 [] rowSES
      (by simp) (List.mem_singleton.mpr rfl) rfl rfl (by decide)⟩⟩

-- ── Network traversal lemmas (C7, C10) ───────────────────────────────────────

theorem networkFuel_ge_two (st : KGState) : 2 ≤ networkFuel st := by
  unfold networkFuel
  have h1 : 2 ≤ 2 * st.relationships.length + 2 := by omega
  have h2 : 1 ≤ 2 * st.relationships.length + 2 := by omega
  calc 2 = 2 * 1 := rfl
    _ ≤ (2 * st.relationships.length + 2) * (2 * st.relationships.length + 2) :=
      Nat.mul_le_mul h1 h2

theorem findLiveEntity_spec (es : List KGEntity) (i : Nat) (e : KGEntity)
    (h : findLiveEntity es i = some e) : e.id = i ∧ e.is_deleted = false := by
  unfold findLiveEntity at h
  have hpred := List.find?_some h
  rw [Bool.and_eq_true] at hpred
  exact ⟨by simpa using hpred.1, by simpa using hpred.2⟩

/-- With `maxDepth = 0` the BFS emits the start node and stops. -/
theorem network_depth_zero (st : KGState) (i : Nat) (e : KGEntity)
    (hlive : findLiveEntity st.entities i = some e) :
    get_entity_network st i 0 = ([mkNetNode e], []) := by
  obtain ⟨m, hm⟩ : ∃ m, networkFuel st = m + 2 :=
    ⟨networkFuel st - 2, by have := networkFuel_ge_two st; omega⟩
  unfold get_entity_network
  rw [hm]
  have hstep : netLoop st 0 (m + 2) [(i, 0)] [] [] [] = ([mkNetNode e], []) := by
    simp only [netLoop, hlive]
    simp [netLoop]
  rw [hstep]
  rfl

theorem reachWithin_mono (st : KGState) (s : Nat) {k k' t : Nat}
    (hle : k ≤ k') (h : ReachWithin st s k t) : ReachWithin st s k' t := by
  induction hle with
  | refl => exact h
  | step _ ih => exact Or.inl ih

/-- Every id the BFS records as a node is reachable from the start
within `max_depth` hops, given that every queue entry is within its
recorded depth. -/
theorem netLoop_reach (st : KGState) (max_depth start : Nat) :
    ∀ (fuel : Nat) (queue : List (Nat × Nat)) (visited : List Nat)
      (nodes : List NetNode) (edges : List NetEdge),
      (∀ p ∈ queue, p.2 ≤ max_depth ∧ ReachWithin st start p.2 p.1) →
      (∀ n ∈ nodes, ReachWithin st start max_depth n.id) →
      ∀ n ∈ (netLoop st max_depth fuel queue visited nodes edges).1,
        ReachWithin st start max_depth n.id := by
  intro fuel
  induction fuel with
  | zero =>
    intro queue visited nodes edges _ hn
    exact hn
  | succ f ih =>
    intro queue visited nodes edges hq hn
    cases queue with
    | nil => exact hn
    | cons p rest =>
      obtain ⟨current, depth⟩ := p
      simp only [netLoop]
      by_cases hv : (visited.contains current || max_depth < depth) = true
      · rw [if_pos hv]
        exact ih rest _ nodes edges (fun p hp => hq p (List.mem_cons_of_mem _ hp)) hn
      · rw [if_neg hv]
        cases hfind : findLiveEntity st.entities current with
        | none =>
          exact ih rest _ nodes edges (fun p hp => hq p (List.mem_cons_of_mem _ hp)) hn
        | some entity =>
          dsimp only
          have hid := (findLiveEntity_spec _ _ _ hfind).1
          have hqhead := hq (current, depth) (List.mem_cons_self _ _)
          have hnode : ReachWithin st start max_depth (mkNetNode entity).id := by
            show ReachWithin st start max_depth entity.id
            rw [hid]
            exact reachWithin_mono st start hqhead.1 hqhead.2
          have hn' : ∀ n ∈ nodes ++ [mkNetNode entity],
              ReachWithin st start max_depth n.id := by
            intro n hnmem
            rcases List.mem_append.mp hnmem with h1 | h2
            · exact hn n h1
            · have := List.mem_singleton.mp h2
              subst this
              exact hnode
          by_cases hd : depth < max_depth
          · rw [if_pos hd]
            apply ih _ _ _ _ ?_ hn'
            intro p hp
            rcases List.mem_append.mp hp with hp1 | hp2
            · rcases List.mem_append.mp hp1 with hp0 | hpo
              · exact hq p (List.mem_cons_of_mem _ hp0)
              · obtain ⟨r, hrfil, hreq⟩ := List.mem_map.mp hpo
                have hrout := (List.mem_filter.mp hrfil).1
                have hrspec := List.mem_filter.mp hrout
                rw [Bool.and_eq_true] at hrspec
                have hsrc : r.source_entity_id = current := by
                  simpa using hrspec.2.1
                have hdel : r.is_deleted = false := by
                  simpa using hrspec.2.2
                subst hreq
                refine ⟨by omega, Or.inr ⟨current, hqhead.2, r, hrspec.1, hdel,
                  Or.inl ⟨hsrc, rfl⟩⟩⟩
            · obtain ⟨r, hrfil, hreq⟩ := List.mem_map.mp hp2
              have hrout := (List.mem_filter.mp hrfil).1
              have hrspec := List.mem_filter.mp hrout
              rw [Bool.and_eq_true] at hrspec
              have htgt : r.target_entity_id = current := by
                simpa using hrspec.2.1
              have hdel : r.is_deleted = false := by
                simpa using hrspec.2.2
              subst hreq
              refine ⟨by omega, Or.inr ⟨current, hqhead.2, r, hrspec.1, hdel,
                Or.inr ⟨rfl, htgt⟩⟩⟩
          · rw [if_neg hd]
            exact ih rest _ _ edges (fun p hp => hq p (List.mem_cons_of_mem _ hp)) hn'

/-- C7 (confirmed): BFS depth bound — with `maxDepth = 0` the network of
an existing non-deleted start entity is exactly the start node and no
edges; with `maxDepth = d` every returned node is reachable from the
start within `d` hops over non-deleted relationships. -/
theorem bfs_depth_bound (st : KGState) (i : Nat) (e : KGEntity)
    (hlive : findLiveEntity st.entities i = some e) :
    get_entity_network st i 0 = ([mkNetNode e], []) ∧
    (∀ d : Nat, ∀ n ∈ (get_entity_network st i d).1, ReachWithin st i d n.id) := by
  refine ⟨network_depth_zero st i e hlive, ?_⟩
  intro d n hn
  exact netLoop_reach st d i (networkFuel st) [(i, 0)] [] [] []
    (by
      intro p hp
      have hpe := List.mem_singleton.mp hp
      subst hpe
      exact ⟨Nat.zero_le d, rfl⟩)
    (by intro x hx; cases hx) n hn

/-- C7 witness: the depth-bound theorem at the one-row SES store. -/
theorem bfs_depth_bound_witness :
    findLiveEntity stateWithSES.entities 1 = some rowSES ∧
    (get_entity_network stateWithSES 1 0 = ([mkNetNode rowSES], []) ∧
      (∀ d : Nat, ∀ n ∈ (get_entity_network stateWithSES 1 d).1,
        ReachWithin stateWithSES 1 d n.id)) :=
  ⟨rfl, bfs_depth_bound stateWithSES 1 rowSES rfl⟩

/-- Every edge surviving the dedup pass comes from the raw edge list. -/
theorem mem_dedupEdges :
    ∀ (l : List NetEdge) (seen : List (Nat × Nat × PyStr)) (ed : NetEdge),
      ed ∈ dedupEdges seen l → ed ∈ l := by
  intro l
  induction l with
  | nil =>
    intro seen ed h
    cases h
  | cons e rest ih =>
    intro seen ed h
    unfold dedupEdges at h
    split at h
    · exact List.mem_cons_of_mem _ (ih _ ed h)
    · rcases List.mem_cons.mp h with h1 | h2
      · exact h1 ▸ List.mem_cons_self _ _
      · exact List.mem_cons_of_mem _ (ih _ ed h2)

/-- Every edge the BFS emits is a non-deleted relationship, and one of
its endpoints is a recorded node reachable within `max_depth - 1`
hops (the node being expanded when the edge was emitted). -/
theorem netLoop_edges (st : KGState) (max_depth start : Nat) :
    ∀ (fuel : Nat) (queue : List (Nat × Nat)) (visited : List Nat)
      (nodes : List NetNode) (edges : List NetEdge),
      (∀ p ∈ queue, p.2 ≤ max_depth ∧ ReachWithin st start p.2 p.1) →
      (∀ ed ∈ edges, ∃ r ∈ st.relationships, r.is_deleted = false ∧
        ed = mkNetEdge r ∧ ∃ a ∈ nodes,
          (a.id = ed.source ∨ a.id = ed.target) ∧
          ReachWithin st start (max_depth - 1) a.id) →
      ∀ ed ∈ (netLoop st max_depth fuel queue visited nodes edges).2,
        ∃ r ∈ st.relationships, r.is_deleted = false ∧ ed = mkNetEdge r ∧
          ∃ a ∈ (netLoop st max_depth fuel queue visited nodes edges).1,
            (a.id = ed.source ∨ a.id = ed.target) ∧
            ReachWithin st start (max_depth - 1) a.id := by
  intro fuel
  induction fuel with
  | zero =>
    intro queue visited nodes edges _ he
    exact he
  | succ f ih =>
    intro queue visited nodes edges hq he
    cases queue with
    | nil => exact he
    | cons p rest =>
      obtain ⟨current, depth⟩ := p
      simp only [netLoop]
      by_cases hv : (visited.contains current || max_depth < depth) = true
      · rw [if_pos hv]
        exact ih rest _ nodes edges (fun p hp => hq p (List.mem_cons_of_mem _ hp)) he
      · rw [if_neg hv]
        cases hfind : findLiveEntity st.entities current with
        | none =>
          exact ih rest _ nodes edges (fun p hp => hq p (List.mem_cons_of_mem _ hp)) he
        | some entity =>
          dsimp only
          have hid := (findLiveEntity_spec _ _ _ hfind).1
          have hqhead := hq (current, depth) (List.mem_cons_self _ _)
          have hextend : ∀ (x : NetNode) (P : NetNode → Prop),
              (∃ a ∈ nodes, P a) → ∃ a ∈ nodes ++ [x], P a := by
            intro x P ⟨a, ha, hPa⟩
            exact ⟨a, List.mem_append.mpr (Or.inl ha), hPa⟩
          by_cases hd : depth < max_depth
          · rw [if_pos hd]
            have hreach : ReachWithin st start (max_depth - 1) (mkNetNode entity).id := by
              show ReachWithin st start (max_depth - 1) entity.id
              rw [hid]
              exact reachWithin_mono st start (by omega) hqhead.2
            apply ih
            · intro p hp
              rcases List.mem_append.mp hp with hp1 | hp2
              · rcases List.mem_append.mp hp1 with hp0 | hpo
                · exact hq p (List.mem_cons_of_mem _ hp0)
                · obtain ⟨r, hrfil, hreq⟩ := List.mem_map.mp hpo
                  have hrout := (List.mem_filter.mp hrfil).1
                  have hrspec := List.mem_filter.mp hrout
                  rw [Bool.and_eq_true] at hrspec
                  have hsrc : r.source_entity_id = current := by
                    simpa using hrspec.2.1
                  have hdel : r.is_deleted = false := by
                    simpa using hrspec.2.2
                  subst hreq
                  exact ⟨by omega, Or.inr ⟨current, hqhead.2, r, hrspec.1, hdel,
                    Or.inl ⟨hsrc, rfl⟩⟩⟩
              · obtain ⟨r, hrfil, hreq⟩ := List.mem_map.mp hp2
                have hrout := (List.mem_filter.mp hrfil).1
                have hrspec := List.mem_filter.mp hrout
                rw [Bool.and_eq_true] at hrspec
                have htgt : r.target_entity_id = current := by
                  simpa using hrspec.2.1
                have hdel : r.is_deleted = false := by
                  simpa using hrspec.2.2
                subst hreq
                exact ⟨by omega, Or.inr ⟨current, hqhead.2, r, hrspec.1, hdel,
                  Or.inr ⟨rfl, htgt⟩⟩⟩
            · intro ed hed
              rcases List.mem_append.mp hed with hed1 | hed2
              · rcases List.mem_append.mp hed1 with hed0 | hedo
                · obtain ⟨r, hr, hrd, hre, hwit⟩ := he ed hed0
                  exact ⟨r, hr, hrd, hre, hextend _ _ hwit⟩
                · obtain ⟨r, hrfil, hreq⟩ := List.mem_map.mp hedo
                  have hrspec := List.mem_filter.mp hrfil
                  rw [Bool.and_eq_true] at hrspec
                  have hsrc : r.source_entity_id = current := by
                    simpa using hrspec.2.1
                  have hdel : r.is_deleted = false := by
                    simpa using hrspec.2.2
                  subst hreq
                  refine ⟨r, hrspec.1, hdel, rfl, mkNetNode entity,
                    List.mem_append.mpr (Or.inr (List.mem_singleton.mpr rfl)), ?_, hreach⟩
                  left
                  show entity.id = r.source_entity_id
                  rw [hid, hsrc]
              · obtain ⟨r, hrfil, hreq⟩ := List.mem_map.mp hed2
                have hrspec := List.mem_filter.mp hrfil
                rw [Bool.and_eq_true] at hrspec
                have htgt : r.target_entity_id = current := by
                  simpa using hrspec.2.1
                have hdel : r.is_deleted = false := by
                  simpa using hrspec.2.2
                subst hreq
                refine ⟨r, hrspec.1, hdel, rfl, mkNetNode entity,
                  List.mem_append.mpr (Or.inr (List.mem_singleton.mpr rfl)), ?_, hreach⟩
                right
                show entity.id = r.target_entity_id
                rw [hid, htgt]
          · rw [if_neg hd]
            apply ih rest _ _ edges (fun p hp => hq p (List.mem_cons_of_mem _ hp))
            intro ed hed
            obtain ⟨r, hr, hrd, hre, hwit⟩ := he ed hed
            exact ⟨r, hr, hrd, hre, hextend _ _ hwit⟩

/-- C10 (confirmed): every edge returned by `get_entity_network` is a
non-deleted relationship one of whose endpoints is a returned node
reachable within `maxDepth - 1` hops (the node being expanded below
`maxDepth` when the edge was recorded) — but the OTHER endpoint id may
be absent from the returned nodes: concretely, in a store whose live
relationship points at a soft-deleted entity, the output contains the
edge while its target id 2 matches no returned node. -/
theorem network_edges_closure :
    (∀ (st : KGState) (i d : Nat), ∀ ed ∈ (get_entity_network st i d).2,
      ∃ r ∈ st.relationships, r.is_deleted = false ∧ ed = mkNetEdge r ∧
        ∃ a ∈ (get_entity_network st i d).1,
          (a.id = ed.source ∨ a.id = ed.target) ∧ ReachWithin st i (d - 1) a.id) ∧
    (get_entity_network stateDangling 1 1 =
        ([mkNetNode rowSES], [mkNetEdge rowServesLive]) ∧
      (mkNetEdge rowServesLive).target = 2 ∧
      (get_entity_network stateDangling 1 1).1.all (fun n => !(n.id == 2)) = true) := by
  constructor
  · intro st i d ed hed
    have hraw : ed ∈ (netLoop st d (networkFuel st) [(i, 0)] [] [] []).2 :=
      mem_dedupEdges _ _ ed hed
    exact netLoop_edges st d i (networkFuel st) [(i, 0)] [] [] []
      (by
        intro p hp
        have hpe := List.mem_singleton.mp hp
        subst hpe
        exact ⟨Nat.zero_le d, rfl⟩)
      (by intro x hx; cases hx) ed hraw
  · exact ⟨rfl, rfl, by decide⟩

/-- C10 witness: the closure theorem applied to the concrete
dangling-endpoint store and its one emitted edge. -/
theorem network_edges_closure_witness :
    mkNetEdge rowServesLive ∈ (get_entity_network stateDangling 1 1).2 ∧
    (∃ r ∈ stateDangling.relationships, r.is_deleted = false ∧
      mkNetEdge rowServesLive = mkNetEdge r ∧
      ∃ a ∈ (get_entity_network stateDangling 1 1).1,
        (a.id = (mkNetEdge rowServesLive).source ∨
          a.id = (mkNetEdge rowServesLive).target) ∧
        ReachWithin stateDangling 1 (1 - 1) a.id) := by
  have hmem : mkNetEdge rowServesLive ∈ (get_entity_network stateDangling 1 1).2 := by
    rw [network_edges_closure.2.1]
    exact List.mem_singleton.mpr rfl
  exact ⟨hmem,
    network_edges_closure.1 stateDangling 1 1 (mkNetEdge rowServesLive) hmem⟩
